import Mathlib

/-!
Verification of the bed-mesh leveling module (`klippy/extras/bed_mesh.py`)
against its natural-language specification.

The Python code computes with IEEE doubles; the embedding uses exact
rationals (`ℚ`), so "within floating tolerance" statements become exact
equalities.  `math.sqrt` (used once, for the total move length) is the one
operation not representable in `ℚ`; it is passed in as a parameter
constrained by the defining property `L * L = Σ dᵢ²`, `0 ≤ L`.
-/

namespace Klipper

/-- Decidable equality for `Except`, so that concrete runs of the fallible
operations can be checked by `decide`. -/
instance {ε α : Type} [DecidableEq ε] [DecidableEq α] :
    DecidableEq (Except ε α) := fun a b =>
  match a, b with
  | Except.error x, Except.error y =>
    if h : x = y then isTrue (by rw [h])
    else isFalse (fun hh => by cases hh; exact h rfl)
  | Except.error _, Except.ok _ => isFalse (fun hh => by cases hh)
  | Except.ok _, Except.error _ => isFalse (fun hh => by cases hh)
  | Except.ok x, Except.ok y =>
    if h : x = y then isTrue (by rw [h])
    else isFalse (fun hh => by cases hh; exact h rfl)

/-- PEP 485 `isclose()` as defined at the top of the module
(`rel_tol` defaults to `1e-9` and `abs_tol` to 0 in the source; callers
pass them explicitly here). -/
def isclose (a b rel_tol abs_tol : ℚ) : Bool :=
  |a - b| ≤ max (rel_tol * max |a| |b|) abs_tol

/-- `within(coord, min_c, max_c, tol)`: true if a coordinate is inside the
rectangle given by `min_c`/`max_c`, with tolerance `tol`. -/
def within (coord min_c max_c : ℚ × ℚ) (tol : ℚ) : Bool :=
  ((max_c.1 + tol) ≥ coord.1 && coord.1 ≥ (min_c.1 - tol)) &&
    ((max_c.2 + tol) ≥ coord.2 && coord.2 ≥ (min_c.2 - tol))

/-- `constrain(val, min_val, max_val) = min(max_val, max(min_val, val))`. -/
def constrain (val min_val max_val : ℚ) : ℚ :=
  min max_val (max min_val val)

/-- Integer version of `constrain`, for the dense-grid cell index. -/
def constrainI (val min_val max_val : ℤ) : ℤ :=
  min max_val (max min_val val)

/-- `lerp(t, v0, v1) = (1-t)*v0 + t*v1`. -/
def lerp (t v0 v1 : ℚ) : ℚ :=
  (1 - t) * v0 + t * v1

/-- `BedMesh.FADE_DISABLE = 0x7FFFFFFF`, the sentinel stored into both
`fade_start` and `fade_end` when fading is disabled. -/
def FADE_DISABLE : ℚ := 0x7FFFFFFF

/-- The fade-configuration part of `BedMesh.__init__` (lines 121–125):
`fade_dist = fade_end - fade_start`; when that is non-positive both
`fade_start` and `fade_end` are replaced by the sentinel `FADE_DISABLE`
(`fade_dist` keeps its non-positive value).  Returns
`(fade_start, fade_end, fade_dist)`. -/
def initFade (fade_start fade_end : ℚ) : ℚ × ℚ × ℚ :=
  if fade_end - fade_start ≤ 0 then (FADE_DISABLE, FADE_DISABLE, fade_end - fade_start)
  else (fade_start, fade_end, fade_end - fade_start)

/-- `BedMesh.get_z_factor(z_pos)`: adds `tool_offset`, then returns 0 at or
above `fade_end`, the linear ramp `(fade_end - z)/fade_dist` at or above
`fade_start`, and 1 below `fade_start`. -/
def get_z_factor (fade_start fade_end fade_dist tool_offset z_pos : ℚ) : ℚ :=
  if z_pos + tool_offset ≥ fade_end then 0
  else if z_pos + tool_offset ≥ fade_start then
    (fade_end - (z_pos + tool_offset)) / fade_dist
  else 1

/-- Fade factor obtained from a configured `fade_start`/`fade_end` pair,
with `tool_offset = 0` (its value in a fresh `BedMesh`). -/
def fadeFactor (cfg_start cfg_end z : ℚ) : ℚ :=
  get_z_factor (initFade cfg_start cfg_end).1 (initFade cfg_start cfg_end).2.1
    (initFade cfg_start cfg_end).2.2 0 z

theorem fadeFactor_enabled_cases (s e z : ℚ) (h : s < e) :
    fadeFactor s e z =
      if e ≤ z then 0 else if s ≤ z then (e - z) / (e - s) else 1 := by
  unfold fadeFactor initFade get_z_factor
  rw [if_neg (by linarith : ¬(e - s ≤ 0))]
  simp only [add_zero, ge_iff_le]

theorem fadeFactor_disabled_cases (s e z : ℚ) (h : e - s ≤ 0) :
    fadeFactor s e z = if FADE_DISABLE ≤ z then 0 else 1 := by
  unfold fadeFactor initFade get_z_factor
  rw [if_pos h]
  simp only [add_zero, ge_iff_le]
  split_ifs <;> simp_all

theorem fadeFactor_range (s e z : ℚ) :
    0 ≤ fadeFactor s e z ∧ fadeFactor s e z ≤ 1 := by
  by_cases hse : s < e
  · rw [fadeFactor_enabled_cases s e z hse]
    have hes : (0 : ℚ) < e - s := by linarith
    split_ifs with h1 h2
    · norm_num
    · constructor
      · apply div_nonneg <;> linarith
      · rw [div_le_one hes]; linarith
    · norm_num
  · rw [fadeFactor_disabled_cases s e z (by linarith)]
    split_ifs <;> norm_num

theorem fadeFactor_antitone (s e : ℚ) (h : s < e) (z₁ z₂ : ℚ)
    (hz : z₁ ≤ z₂) : fadeFactor s e z₂ ≤ fadeFactor s e z₁ := by
  rw [fadeFactor_enabled_cases s e z₁ h, fadeFactor_enabled_cases s e z₂ h]
  have hes : (0 : ℚ) < e - s := by linarith
  split_ifs with h1 h2 h3 h4 h5 h6 h7
  all_goals try rfl
  all_goals try (exfalso; linarith)
  all_goals try (apply div_nonneg <;> linarith)
  all_goals try (rw [div_le_one hes]; linarith)
  all_goals (rw [div_le_div_iff₀ hes hes]
             exact mul_le_mul_of_nonneg_right (by linarith) (by linarith))

/-- C3 counterexample: configuring `fade_start = 1, fade_end = 0` yields a
non-positive span, which the claim says "disables fading so the factor is
always 1"; yet at `z = 0x7FFFFFFF` the code returns factor 0, not 1. -/
theorem C3_fade_counterexample :
    fadeFactor 1 0 2147483647 = 0 ∧ fadeFactor 1 0 2147483647 ≠ 1 := by
  constructor
  · rw [fadeFactor_disabled_cases 1 0 2147483647 (by norm_num)]
    rw [if_pos (by norm_num [FADE_DISABLE])]
  · rw [fadeFactor_disabled_cases 1 0 2147483647 (by norm_num)]
    rw [if_pos (by norm_num [FADE_DISABLE])]
    norm_num

/-- C3 (amended): for every `z` the fade factor lies in `[0,1]`; when
`fade_start < fade_end` it is 0 at or above `fade_end`, 1 below
`fade_start`, the linear ramp `(fade_end - z)/(fade_end - fade_start)` in
between, and non-increasing in `z`.  A configured pair with non-positive
span disables fading so the factor is 1 for every `z` below the sentinel
`FADE_DISABLE = 0x7FFFFFFF` (and 0 at or above the sentinel). -/
theorem C3_fade_factor (s e : ℚ) :
    (∀ z, 0 ≤ fadeFactor s e z ∧ fadeFactor s e z ≤ 1) ∧
    (s < e →
      (∀ z, e ≤ z → fadeFactor s e z = 0) ∧
      (∀ z, z < s → fadeFactor s e z = 1) ∧
      (∀ z, s ≤ z → z < e → fadeFactor s e z = (e - z) / (e - s)) ∧
      (∀ z₁ z₂, z₁ ≤ z₂ → fadeFactor s e z₂ ≤ fadeFactor s e z₁)) ∧
    (e - s ≤ 0 → ∀ z, z < FADE_DISABLE → fadeFactor s e z = 1) := by
  refine ⟨fun z => fadeFactor_range s e z, fun h => ⟨?_, ?_, ?_, ?_⟩, ?_⟩
  · intro z hz
    rw [fadeFactor_enabled_cases s e z h, if_pos hz]
  · intro z hz
    rw [fadeFactor_enabled_cases s e z h,
      if_neg (by linarith), if_neg (by linarith)]
  · intro z hz1 hz2
    rw [fadeFactor_enabled_cases s e z h, if_neg (by linarith), if_pos hz1]
  · exact fun z₁ z₂ hz => fadeFactor_antitone s e h z₁ z₂ hz
  · intro hd z hz
    rw [fadeFactor_disabled_cases s e z hd, if_neg (by linarith)]

/-- Witness for C3: at the concrete configuration `fade_start = 1`,
`fade_end = 10`, the factor is the ramp value `5/9` at `z = 5` and `1` at
`z = 0`. -/
theorem C3_fade_factor_witness :
    fadeFactor 1 10 5 = 5 / 9 ∧ fadeFactor 1 10 0 = 1 := by
  constructor
  · have h := (C3_fade_factor 1 10).2.1 (by norm_num)
    rw [h.2.2.1 5 (by norm_num) (by norm_num)]
    norm_num
  · exact (C3_fade_factor 1 10).2.1 (by norm_num) |>.2.1 0 (by norm_num)

/-! ### Faulty (forbidden) regions: `ProbeManager._init_faulty_regions` -/

/-- A rectangular region as a pair (min-ish corner, max-ish corner); raw
configured regions may have the corners in any order. -/
abbrev Region := (ℚ × ℚ) × (ℚ × ℚ)

/-- The four corners `c1, c2, c3, c4` of a normalized region
(`c1` = min point, `c3` = max point, `c2 = (c1.x, c3.y)`, `c4 = (c3.x, c1.y)`),
in the order the source checks them. -/
def regionCorners (r : Region) : List (ℚ × ℚ) :=
  [r.1, (r.1.1, r.2.2), r.2, (r.2.1, r.1.2)]

/-- Corner normalization of `_init_faulty_regions`:
`c1 = [min(s, e) for s, e in zip(start, end)]`. -/
def regionMinCorner (r : Region) : ℚ × ℚ :=
  (min r.1.1 r.2.1, min r.1.2 r.2.2)

/-- Corner normalization of `_init_faulty_regions`:
`c3 = [max(s, e) for s, e in zip(start, end)]`. -/
def regionMaxCorner (r : Region) : ℚ × ℚ :=
  (max r.1.1 r.2.1, max r.1.2 r.2.2)

/-- One iteration of the `_init_faulty_regions` loop: normalize the new
region's corners, raise a config error if any existing region's corner is
within the new region or any new corner is within an existing region,
otherwise append `(c1, c3)` to the list. -/
def addFaultyRegion (acc : List Region) (r : Region) :
    Except String (List Region) :=
  if acc.any (fun prev =>
      (regionCorners prev).any
        (fun coord => within coord (regionMinCorner r) (regionMaxCorner r) 0) ||
      (regionCorners (regionMinCorner r, regionMaxCorner r)).any
        (fun coord => within coord prev.1 prev.2 0)) then
    Except.error "bed_mesh: faulty regions overlap"
  else
    Except.ok (acc ++ [(regionMinCorner r, regionMaxCorner r)])

/-- `ProbeManager._init_faulty_regions` loop: process the configured
regions in order, threading the accumulated region list through the
overlap check and stopping at the first error. -/
def initFaultyRegionsAux : List Region → List Region → Except String (List Region)
  | acc, [] => Except.ok acc
  | acc, r :: rs =>
    match addFaultyRegion acc r with
    | Except.error e => Except.error e
    | Except.ok acc' => initFaultyRegionsAux acc' rs

/-- `ProbeManager._init_faulty_regions`, starting from the empty region
list. -/
def initFaultyRegions (rs : List Region) : Except String (List Region) :=
  initFaultyRegionsAux [] rs

/-- No corner of `a` lies within `b` (the `within` check with zero
tolerance). -/
def noCornerWithin (a b : Region) : Prop :=
  ∀ coord ∈ regionCorners a, within coord b.1 b.2 0 = false

/-- Mutual corner-disjointness of two regions, as validated pairwise by
`_init_faulty_regions`. -/
def regionsDisjoint (a b : Region) : Prop :=
  noCornerWithin a b ∧ noCornerWithin b a

instance : DecidablePred (fun ab : Region × Region => regionsDisjoint ab.1 ab.2) := by
  intro ab
  unfold regionsDisjoint noCornerWithin
  infer_instance

theorem addFaultyRegion_pairwise (acc : List Region) (r : Region)
    (acc' : List Region) (h : addFaultyRegion acc r = Except.ok acc')
    (hp : acc.Pairwise regionsDisjoint) : acc'.Pairwise regionsDisjoint := by
  unfold addFaultyRegion at h
  by_cases hc : acc.any (fun prev =>
      (regionCorners prev).any
        (fun coord => within coord (regionMinCorner r) (regionMaxCorner r) 0) ||
      (regionCorners (regionMinCorner r, regionMaxCorner r)).any
        (fun coord => within coord prev.1 prev.2 0)) = true
  · rw [if_pos hc] at h
    exact absurd h (by simp)
  · rw [if_neg hc] at h
    cases h
    rw [List.pairwise_append]
    refine ⟨hp, List.pairwise_singleton _ _, ?_⟩
    intro a ha b hb
    simp only [List.mem_singleton] at hb
    subst hb
    simp only [List.any_eq_true, not_exists, not_and, Bool.or_eq_true,
      not_or] at hc
    have := hc a ha
    constructor
    · intro coord hcoord
      have h1 := this.1
      simp only [List.any_eq_true, not_exists, not_and] at h1
      exact Bool.not_eq_true _ |>.mp (h1 coord hcoord)
    · intro coord hcoord
      have h2 := this.2
      simp only [List.any_eq_true, not_exists, not_and] at h2
      exact Bool.not_eq_true _ |>.mp (h2 coord hcoord)

theorem initFaultyRegionsAux_pairwise (rs : List Region) :
    ∀ acc l, acc.Pairwise regionsDisjoint →
      initFaultyRegionsAux acc rs = Except.ok l →
      l.Pairwise regionsDisjoint := by
  induction rs with
  | nil =>
    intro acc l hp heq
    unfold initFaultyRegionsAux at heq
    cases heq
    exact hp
  | cons r rs ih =>
    intro acc l hp heq
    unfold initFaultyRegionsAux at heq
    cases haf : addFaultyRegion acc r with
    | error e => rw [haf] at heq; exact absurd heq (by simp)
    | ok acc' =>
      rw [haf] at heq
      exact ih acc' l (addFaultyRegion_pairwise acc r acc' haf hp) heq

/-- C9: faulty-region construction is validated pairwise over all corners
of both rectangles — a successfully built region list is mutually
corner-disjoint — and the two overlapping regions `[(10,10),(50,50)]` and
`[(30,30),(70,70)]` are rejected with a configuration error at setup. -/
theorem C9_faulty_regions_overlap :
    initFaultyRegions [((10, 10), (50, 50)), ((30, 30), (70, 70))] =
      Except.error "bed_mesh: faulty regions overlap" ∧
    (∀ rs l, initFaultyRegions rs = Except.ok l →
      l.Pairwise regionsDisjoint) := by
  constructor
  · norm_num [initFaultyRegions, initFaultyRegionsAux, addFaultyRegion,
      regionCorners, regionMinCorner, regionMaxCorner, within]
  · intro rs l h
    exact initFaultyRegionsAux_pairwise rs [] l (List.Pairwise.nil) h

/-- Witness for C9: two disjoint regions are accepted, and the resulting
list is pairwise corner-disjoint. -/
theorem C9_faulty_regions_witness :
    initFaultyRegions [((0, 0), (5, 5)), ((20, 20), (30, 30))] =
      Except.ok [((0, 0), (5, 5)), ((20, 20), (30, 30))] ∧
    List.Pairwise regionsDisjoint
      [((0, 0), (5, 5)), ((20, 20), (30, 30))] := by
  have hok : initFaultyRegions [((0, 0), (5, 5)), ((20, 20), (30, 30))] =
      Except.ok [((0, 0), (5, 5)), ((20, 20), (30, 30))] := by
    norm_num [initFaultyRegions, initFaultyRegionsAux, addFaultyRegion,
      regionCorners, regionMinCorner, regionMaxCorner, within]
  exact ⟨hok, C9_faulty_regions_overlap.2
    [((0, 0), (5, 5)), ((20, 20), (30, 30))]
    [((0, 0), (5, 5)), ((20, 20), (30, 30))] hok⟩

/-! ### Probe point generation: `ProbeManager.generate_points` and the
round-bed configuration checks of `BedMeshCalibrate._init_mesh_config` -/

/-- `math.floor(d * 100) / 100`: floor a step size down to the next
hundredth. -/
def floorHundredth (d : ℚ) : ℚ := (⌊d * 100⌋ : ℚ) / 100

/-- `math.floor(r * 10) / 10`: the mesh radius "may have precision to
.1mm" (`_init_mesh_config`). -/
def floorTenth (r : ℚ) : ℚ := (⌊r * 10⌋ : ℚ) / 10

/-- Round-bed probe-count parity validation in `_init_mesh_config`:
`if not x_cnt & 1: raise config.error(...)`. -/
def roundProbeCountCheck (cnt : ℕ) : Except String ℕ :=
  if cnt % 2 = 0 then
    Except.error "bed_mesh: probe_count must be odd for round beds"
  else Except.ok cnt

/-- Recentred bounds for a round bed (`generate_points` lines 988–991):
`new_r = (x_cnt // 2) * x_dist`, bounds `[-new_r, new_r]`. -/
def roundMeshBounds (x_cnt : ℕ) (x_dist : ℚ) : ℚ × ℚ :=
  (-((x_cnt / 2 : ℕ) * x_dist), ((x_cnt / 2 : ℕ) * x_dist))

/-- One snake row of `generate_points`: the j-th x position ascends from
`min_x` on even rows and descends from `max_x` on odd rows; for round beds
only points whose distance from the origin is at most `radius` are kept,
translated by the bed origin.  The source compares
`math.sqrt(x² + y²) <= radius`; both sides are nonnegative, so the
comparison is done squared here. -/
def snakeRow (x_cnt : ℕ) (min_x max_x x_dist : ℚ) (radius : Option ℚ)
    (origin : ℚ × ℚ) (i : ℕ) (pos_y : ℚ) : List (ℚ × ℚ) :=
  (List.range x_cnt).filterMap (fun (j : ℕ) =>
    let pos_x : ℚ :=
      if i % 2 = 0 then min_x + (j : ℚ) * x_dist else max_x - (j : ℚ) * x_dist
    match radius with
    | none => some (pos_x, pos_y)
    | some r =>
      if pos_x * pos_x + pos_y * pos_y ≤ r * r then
        some (origin.1 + pos_x, origin.2 + pos_y)
      else none)

/-- The nested loops of `generate_points`: rows from `i`, with `pos_y`
advancing by `y_dist` per row. -/
def snakeRows (x_cnt : ℕ) (min_x max_x x_dist y_dist : ℚ) (radius : Option ℚ)
    (origin : ℚ × ℚ) : ℕ → ℚ → ℕ → List (ℚ × ℚ)
  | _, _, 0 => []
  | i, pos_y, rows + 1 =>
    snakeRow x_cnt min_x max_x x_dist radius origin i pos_y ++
      snakeRows x_cnt min_x max_x x_dist y_dist radius origin (i + 1)
        (pos_y + y_dist) rows

/-- `ProbeManager.generate_points`: per-axis step sizes floored to 0.01
precision, error when a floored step is below 1.0; for round beds the
bounds are recentred via `roundMeshBounds` and `y_dist` is replaced by
`x_dist`; for rectangular beds only `max_x` is recalculated. -/
def generatePoints (x_cnt y_cnt : ℕ) (mesh_min mesh_max : ℚ × ℚ)
    (radius : Option ℚ) (origin : ℚ × ℚ) : Except String (List (ℚ × ℚ)) :=
  let x_dist := floorHundredth ((mesh_max.1 - mesh_min.1) / ((x_cnt : ℚ) - 1))
  let y_dist := floorHundredth ((mesh_max.2 - mesh_min.2) / ((y_cnt : ℚ) - 1))
  if x_dist < 1 ∨ y_dist < 1 then
    Except.error "bed_mesh: min/max points too close together"
  else
    match radius with
    | some _ =>
      Except.ok (snakeRows x_cnt (roundMeshBounds x_cnt x_dist).1
        (roundMeshBounds x_cnt x_dist).2 x_dist x_dist radius origin 0
        (roundMeshBounds x_cnt x_dist).1 y_cnt)
    | none =>
      Except.ok (snakeRows x_cnt mesh_min.1
        (mesh_min.1 + x_dist * ((x_cnt : ℚ) - 1)) x_dist y_dist radius origin 0
        mesh_min.2 y_cnt)

theorem floorHundredth_le (d : ℚ) : floorHundredth d ≤ d := by
  unfold floorHundredth
  rw [div_le_iff₀ (by norm_num : (0:ℚ) < 100)]
  exact_mod_cast Int.floor_le (d * 100)

theorem filterMap_congr_some {α β : Type} (f : α → Option β) (g : α → β)
    (l : List α) (h : ∀ a, f a = some (g a)) : l.filterMap f = l.map g := by
  induction l with
  | nil => rfl
  | cons a l ih => simp only [List.filterMap_cons, h a, List.map_cons, ih]

theorem snakeRow_rect (x_cnt : ℕ) (min_x max_x x_dist : ℚ) (origin : ℚ × ℚ)
    (i : ℕ) (pos_y : ℚ) :
    snakeRow x_cnt min_x max_x x_dist none origin i pos_y =
      (List.range x_cnt).map (fun j : ℕ =>
        ((if i % 2 = 0 then min_x + (j : ℚ) * x_dist
          else max_x - (j : ℚ) * x_dist), pos_y)) := by
  exact filterMap_congr_some _ _ _ (fun j => rfl)

theorem snakeRows_rect_length (x_cnt : ℕ) (min_x max_x x_dist y_dist : ℚ)
    (origin : ℚ × ℚ) (rows : ℕ) :
    ∀ i0 pos_y,
      (snakeRows x_cnt min_x max_x x_dist y_dist none origin i0 pos_y
        rows).length = rows * x_cnt := by
  induction rows with
  | zero => intro i0 pos_y; simp [snakeRows]
  | succ rows ih =>
    intro i0 pos_y
    show (snakeRow _ _ _ _ _ _ _ _ ++ snakeRows _ _ _ _ _ _ _ _ _ _).length = _
    rw [List.length_append, snakeRow_rect, List.length_map,
      List.length_range, ih]
    ring

theorem snakeRows_rect_get (x_cnt : ℕ) (min_x max_x x_dist y_dist : ℚ)
    (origin : ℚ × ℚ) (rows : ℕ) :
    ∀ i0 pos_y i j, i < rows → j < x_cnt →
      (snakeRows x_cnt min_x max_x x_dist y_dist none origin i0 pos_y
          rows)[i * x_cnt + j]? =
        some ((if (i0 + i) % 2 = 0 then min_x + (j : ℚ) * x_dist
          else max_x - (j : ℚ) * x_dist), pos_y + (i : ℚ) * y_dist) := by
  induction rows with
  | zero => intro i0 pos_y i j hi hj; omega
  | succ rows ih =>
    intro i0 pos_y i j hi hj
    show (snakeRow _ _ _ _ _ _ _ _ ++ snakeRows _ _ _ _ _ _ _ _ _ _)[_]? = _
    cases i with
    | zero =>
      rw [List.getElem?_append_left (by
        rw [snakeRow_rect, List.length_map, List.length_range]; omega)]
      rw [snakeRow_rect, List.getElem?_map]
      simp only [Nat.zero_mul, Nat.zero_add, List.getElem?_range, hj,
        if_pos, Option.map_some', Nat.add_zero, Nat.cast_zero, zero_mul,
        add_zero]
    | succ i =>
      rw [List.getElem?_append_right (by
        rw [snakeRow_rect, List.length_map, List.length_range]
        calc x_cnt ≤ (i + 1) * x_cnt := Nat.le_mul_of_pos_left x_cnt (by omega)
        _ ≤ (i + 1) * x_cnt + j := Nat.le_add_right _ _)]
      rw [snakeRow_rect, List.length_map, List.length_range,
        show (i + 1) * x_cnt + j - x_cnt = i * x_cnt + j by
          rw [Nat.succ_mul]; omega]
      rw [ih (i0 + 1) (pos_y + y_dist) i j (by omega) hj]
      rw [show i0 + 1 + i = i0 + (i + 1) by omega]
      simp only [Option.some_inj, Prod.mk.injEq]
      refine ⟨trivial, ?_⟩
      push_cast
      ring

theorem snakeRows_rect_mem (x_cnt : ℕ) (min_x max_x x_dist y_dist : ℚ)
    (origin : ℚ × ℚ) (rows : ℕ) :
    ∀ i0 pos_y p,
      p ∈ snakeRows x_cnt min_x max_x x_dist y_dist none origin i0 pos_y
        rows →
      ∃ i j : ℕ, i < rows ∧ j < x_cnt ∧
        p = ((if (i0 + i) % 2 = 0 then min_x + (j : ℚ) * x_dist
              else max_x - (j : ℚ) * x_dist), pos_y + (i : ℚ) * y_dist) := by
  induction rows with
  | zero => intro i0 pos_y p hp; simp [snakeRows] at hp
  | succ rows ih =>
    intro i0 pos_y p hp
    simp only [snakeRows, List.mem_append] at hp
    cases hp with
    | inl h =>
      rw [snakeRow_rect] at h
      simp only [List.mem_map, List.mem_range] at h
      obtain ⟨j, hj, hpj⟩ := h
      refine ⟨0, j, by omega, hj, ?_⟩
      rw [← hpj]
      simp
    | inr h =>
      obtain ⟨i, j, hi, hj, hp⟩ := ih (i0 + 1) (pos_y + y_dist) p h
      refine ⟨i + 1, j, by omega, hj, ?_⟩
      rw [hp, show i0 + 1 + i = i0 + (i + 1) by omega]
      simp only [Prod.mk.injEq]
      refine ⟨trivial, ?_⟩
      push_cast
      ring

/-- C7: for a rectangular bed, `generate_points` produces exactly
`x_count × y_count` points in boustrophedon order (X ascending on even
rows, descending on odd rows), with per-axis step sizes floored to 0.01
precision, all generated points within the configured bounds; and it
fails with an error whenever the floored step on either axis is below
1.0. -/
theorem C7_generate_points_rect (x_cnt y_cnt : ℕ) (min_x min_y max_x max_y
    xd yd : ℚ) (origin : ℚ × ℚ) (hx : 2 ≤ x_cnt) (hy : 2 ≤ y_cnt)
    (hxd : xd = floorHundredth ((max_x - min_x) / ((x_cnt : ℚ) - 1)))
    (hyd : yd = floorHundredth ((max_y - min_y) / ((y_cnt : ℚ) - 1))) :
    (xd < 1 ∨ yd < 1 →
      generatePoints x_cnt y_cnt (min_x, min_y) (max_x, max_y) none origin =
        Except.error "bed_mesh: min/max points too close together") ∧
    (1 ≤ xd → 1 ≤ yd →
      ∃ pts,
        generatePoints x_cnt y_cnt (min_x, min_y) (max_x, max_y) none
          origin = Except.ok pts ∧
        pts.length = y_cnt * x_cnt ∧
        (∀ i j : ℕ, i < y_cnt → j < x_cnt →
          pts[i * x_cnt + j]? = some
            ((if i % 2 = 0 then min_x + (j : ℚ) * xd
              else (min_x + xd * ((x_cnt : ℚ) - 1)) - (j : ℚ) * xd),
              min_y + (i : ℚ) * yd)) ∧
        (∀ p ∈ pts, min_x ≤ p.1 ∧ p.1 ≤ max_x ∧ min_y ≤ p.2 ∧
          p.2 ≤ max_y)) := by
  have hc1 : (1 : ℚ) ≤ (x_cnt : ℚ) - 1 := by
    have : (2 : ℚ) ≤ (x_cnt : ℚ) := by exact_mod_cast hx
    linarith
  have hc1y : (1 : ℚ) ≤ (y_cnt : ℚ) - 1 := by
    have : (2 : ℚ) ≤ (y_cnt : ℚ) := by exact_mod_cast hy
    linarith
  constructor
  · intro h
    simp only [generatePoints, ← hxd, ← hyd]
    rw [if_pos h]
  · intro h1 h2
    have hcond : ¬(xd < 1 ∨ yd < 1) := by push_neg; constructor <;> linarith
    refine ⟨snakeRows x_cnt min_x (min_x + xd * ((x_cnt : ℚ) - 1)) xd yd none
      origin 0 min_y y_cnt, ?_, ?_, ?_, ?_⟩
    · simp only [generatePoints, ← hxd, ← hyd]
      rw [if_neg hcond]
    · exact snakeRows_rect_length _ _ _ _ _ _ _ _ _
    · intro i j hi hj
      rw [snakeRows_rect_get x_cnt min_x _ xd yd origin y_cnt 0 min_y i j
        hi hj]
      simp only [Nat.zero_add]
    · intro p hp
      obtain ⟨i, j, hi, hj, hpe⟩ :=
        snakeRows_rect_mem x_cnt min_x _ xd yd origin y_cnt 0 min_y p hp
      have hxd_le : xd ≤ (max_x - min_x) / ((x_cnt : ℚ) - 1) :=
        hxd ▸ floorHundredth_le _
      have hyd_le : yd ≤ (max_y - min_y) / ((y_cnt : ℚ) - 1) :=
        hyd ▸ floorHundredth_le _
      have hxc : xd * ((x_cnt : ℚ) - 1) ≤ max_x - min_x := by
        rw [← div_mul_cancel₀ (max_x - min_x)
          (by linarith : ((x_cnt : ℚ) - 1) ≠ 0)]
        exact mul_le_mul_of_nonneg_right hxd_le (by linarith)
      have hyc : yd * ((y_cnt : ℚ) - 1) ≤ max_y - min_y := by
        rw [← div_mul_cancel₀ (max_y - min_y)
          (by linarith : ((y_cnt : ℚ) - 1) ≠ 0)]
        exact mul_le_mul_of_nonneg_right hyd_le (by linarith)
      have hjc : (j : ℚ) ≤ (x_cnt : ℚ) - 1 := by
        have : (j : ℚ) + 1 ≤ (x_cnt : ℚ) := by exact_mod_cast hj
        linarith
      have hic : (i : ℚ) ≤ (y_cnt : ℚ) - 1 := by
        have : (i : ℚ) + 1 ≤ (y_cnt : ℚ) := by exact_mod_cast hi
        linarith
      have hj0 : (0 : ℚ) ≤ (j : ℚ) := Nat.cast_nonneg j
      have hi0 : (0 : ℚ) ≤ (i : ℚ) := Nat.cast_nonneg i
      have hjmul : (j : ℚ) * xd ≤ ((x_cnt : ℚ) - 1) * xd :=
        mul_le_mul_of_nonneg_right hjc (by linarith)
      have himul : (i : ℚ) * yd ≤ ((y_cnt : ℚ) - 1) * yd :=
        mul_le_mul_of_nonneg_right hic (by linarith)
      rw [hpe]
      dsimp only
      refine ⟨?_, ?_, by nlinarith, by nlinarith⟩
      · split_ifs
        · nlinarith
        · nlinarith
      · split_ifs
        · nlinarith
        · nlinarith

/-- Witness for C7: the 3×3 lattice on `[0,200]²` has 9 points; point
index 3 (row 1, column 0) sits at `(200, 100)` — the X direction has
reversed on the second row. -/
theorem C7_generate_points_rect_witness :
    ((generatePoints 3 3 ((0 : ℚ), (0 : ℚ)) ((200 : ℚ), (200 : ℚ)) none
        (0, 0)).toOption.getD []).length = 9 ∧
    ((generatePoints 3 3 ((0 : ℚ), (0 : ℚ)) ((200 : ℚ), (200 : ℚ)) none
        (0, 0)).toOption.getD [])[3]? = some ((200 : ℚ), (100 : ℚ)) ∧
    ((generatePoints 3 3 ((0 : ℚ), (0 : ℚ)) ((200 : ℚ), (200 : ℚ)) none
        (0, 0)).toOption.getD [])[0]? = some ((0 : ℚ), (0 : ℚ)) := by
  have h := (C7_generate_points_rect 3 3 0 0 200 200 100 100 (0, 0)
    (by norm_num) (by norm_num)
    (by norm_num [floorHundredth]) (by norm_num [floorHundredth])).2
    (by norm_num) (by norm_num)
  obtain ⟨pts, hok, hlen, hget, _⟩ := h
  rw [hok]
  simp only [Except.toOption, Option.getD_some]
  refine ⟨by rw [hlen], ?_, ?_⟩
  · have := hget 1 0 (by norm_num) (by norm_num)
    norm_num at this
    simpa using this
  · have := hget 0 0 (by norm_num) (by norm_num)
    norm_num at this
    simpa using this

theorem snakeRows_round_mem (x_cnt : ℕ) (min_x max_x x_dist y_dist r : ℚ)
    (origin : ℚ × ℚ) (rows : ℕ) :
    ∀ i0 pos_y p,
      p ∈ snakeRows x_cnt min_x max_x x_dist y_dist (some r) origin i0 pos_y
        rows →
      ∃ i j : ℕ, i < rows ∧ j < x_cnt ∧
        ∃ px py : ℚ,
          px = (if (i0 + i) % 2 = 0 then min_x + (j : ℚ) * x_dist
            else max_x - (j : ℚ) * x_dist) ∧
          py = pos_y + (i : ℚ) * y_dist ∧
          px * px + py * py ≤ r * r ∧
          p = (origin.1 + px, origin.2 + py) := by
  induction rows with
  | zero => intro i0 pos_y p hp; simp [snakeRows] at hp
  | succ rows ih =>
    intro i0 pos_y p hp
    simp only [snakeRows, List.mem_append] at hp
    cases hp with
    | inl h =>
      simp only [snakeRow, List.mem_filterMap, List.mem_range] at h
      obtain ⟨j, hj, hfj⟩ := h
      split_ifs at hfj with hpar hkeep hkeep2
      · simp only [Option.some_inj] at hfj
        refine ⟨0, j, by omega, hj, min_x + (j : ℚ) * x_dist, pos_y,
          ?_, by simp, hkeep, hfj.symm⟩
        rw [Nat.add_zero, if_pos hpar]
      · simp only [Option.some_inj] at hfj
        refine ⟨0, j, by omega, hj, max_x - (j : ℚ) * x_dist, pos_y,
          ?_, by simp, hkeep2, hfj.symm⟩
        rw [Nat.add_zero, if_neg hpar]
    | inr h =>
      obtain ⟨i, j, hi, hj, px, py, hpx, hpy, hcond, hpe⟩ :=
        ih (i0 + 1) (pos_y + y_dist) p h
      refine ⟨i + 1, j, by omega, hj, px, py, ?_, ?_, hcond, hpe⟩
      · rw [hpx, show i0 + 1 + i = i0 + (i + 1) by omega]
      · rw [hpy]; push_cast; ring

/-- C8 counterexample: with `radius = 10` and `x_count = 7`, the floored
step is `3.33` and the recentred half-width is `(7 // 2) * 3.33 = 9.99`,
so the bounds become `[-9.99, 9.99]`, not `[-r, r] = [-10, 10]` as the
claim states. -/
theorem C8_round_counterexample :
    roundMeshBounds 7 (floorHundredth (((10 : ℚ) - -10) / ((7 : ℚ) - 1))) =
      (-(999 / 100 : ℚ), (999 / 100 : ℚ)) ∧
    (roundMeshBounds 7
      (floorHundredth (((10 : ℚ) - -10) / ((7 : ℚ) - 1)))).1 ≠ -(10 : ℚ) := by
  constructor <;> norm_num [roundMeshBounds, floorHundredth]

/-- C8 (amended): for a circular bed an even configured probe count per
axis is rejected as a configuration error (in particular a count of 4);
and every point that point generation keeps lies at distance at most
`radius` from the bed origin — points of the rectangular snake lattice
beyond that radius are dropped — with the bounds recentred to
`[-r', r']` where `r' = (x_count // 2) * x_dist` (the 0.01-floored step),
which can be strictly smaller than the configured radius. -/
theorem C8_round_bed (x_cnt y_cnt : ℕ) (mesh_min mesh_max : ℚ × ℚ) (r xd : ℚ)
    (origin : ℚ × ℚ) (pts : List (ℚ × ℚ))
    (hcnt : y_cnt = x_cnt)
    (hxd : xd = floorHundredth ((mesh_max.1 - mesh_min.1) / ((x_cnt : ℚ) - 1)))
    (hok : generatePoints x_cnt y_cnt mesh_min mesh_max (some r) origin =
      Except.ok pts) :
    (∀ cnt : ℕ, cnt % 2 = 0 → roundProbeCountCheck cnt =
      Except.error "bed_mesh: probe_count must be odd for round beds") ∧
    roundProbeCountCheck 4 =
      Except.error "bed_mesh: probe_count must be odd for round beds" ∧
    (∀ p ∈ pts,
      (p.1 - origin.1) * (p.1 - origin.1) +
        (p.2 - origin.2) * (p.2 - origin.2) ≤ r * r ∧
      |p.1 - origin.1| ≤ ((x_cnt / 2 : ℕ) : ℚ) * xd ∧
      |p.2 - origin.2| ≤ ((x_cnt / 2 : ℕ) : ℚ) * xd) := by
  refine ⟨fun cnt hc => by rw [roundProbeCountCheck, if_pos hc],
    by rw [roundProbeCountCheck, if_pos (by norm_num)], ?_⟩
  simp only [generatePoints, ← hxd] at hok
  split_ifs at hok with hcond
  simp only [Except.ok.injEq] at hok
  push_neg at hcond
  obtain ⟨hxd1, _⟩ := hcond
  have hxd0 : (0 : ℚ) ≤ xd := by linarith
  have hhalf : ((x_cnt : ℚ)) - 1 ≤ 2 * ((x_cnt / 2 : ℕ) : ℚ) := by
    have : x_cnt ≤ 2 * (x_cnt / 2) + 1 := by omega
    have h2 : (x_cnt : ℚ) ≤ 2 * ((x_cnt / 2 : ℕ) : ℚ) + 1 := by
      exact_mod_cast this
    linarith
  intro p hp
  rw [← hok] at hp
  obtain ⟨i, j, hi, hj, px, py, hpx, hpy, hr, hpe⟩ :=
    snakeRows_round_mem x_cnt _ _ xd xd r origin y_cnt 0 _ p hp
  simp only [roundMeshBounds] at hpx hpy
  have hpx1 : p.1 - origin.1 = px := by rw [hpe]; dsimp only; ring
  have hpy1 : p.2 - origin.2 = py := by rw [hpe]; dsimp only; ring
  have hjc : (j : ℚ) ≤ (x_cnt : ℚ) - 1 := by
    have : (j : ℚ) + 1 ≤ (x_cnt : ℚ) := by exact_mod_cast hj
    linarith
  have hic : (i : ℚ) ≤ (x_cnt : ℚ) - 1 := by
    have : (i : ℚ) + 1 ≤ (x_cnt : ℚ) := by
      rw [hcnt] at hi
      exact_mod_cast hi
    linarith
  have hj0 : (0 : ℚ) ≤ (j : ℚ) := Nat.cast_nonneg j
  have hi0 : (0 : ℚ) ≤ (i : ℚ) := Nat.cast_nonneg i
  have hjmul : (j : ℚ) * xd ≤ ((x_cnt : ℚ) - 1) * xd :=
    mul_le_mul_of_nonneg_right hjc hxd0
  have himul : (i : ℚ) * xd ≤ ((x_cnt : ℚ) - 1) * xd :=
    mul_le_mul_of_nonneg_right hic hxd0
  have hhalfmul : ((x_cnt : ℚ) - 1) * xd ≤
      2 * (((x_cnt / 2 : ℕ) : ℚ) * xd) := by
    calc ((x_cnt : ℚ) - 1) * xd ≤ (2 * ((x_cnt / 2 : ℕ) : ℚ)) * xd :=
          mul_le_mul_of_nonneg_right hhalf hxd0
    _ = 2 * (((x_cnt / 2 : ℕ) : ℚ) * xd) := by ring
  have hjxd : (0 : ℚ) ≤ (j : ℚ) * xd := mul_nonneg hj0 hxd0
  have hixd : (0 : ℚ) ≤ (i : ℚ) * xd := mul_nonneg hi0 hxd0
  refine ⟨by rw [hpx1, hpy1]; exact hr, ?_, ?_⟩
  · rw [hpx1, hpx, abs_le]
    constructor
    · split_ifs <;> linarith
    · split_ifs <;> linarith
  · rw [hpy1, hpy, abs_le]
    exact ⟨by linarith, by linarith⟩

/-- Witness for C8: a 3×3 round bed with radius 50 keeps exactly the five
lattice points within the radius; the point `(50, 0)` satisfies the
distance and recentred-bound conclusions, and a probe count of 4 is
rejected. -/
theorem C8_round_bed_witness :
    roundProbeCountCheck 4 =
      Except.error "bed_mesh: probe_count must be odd for round beds" ∧
    ((50 : ℚ) - 0) * ((50 : ℚ) - 0) + ((0 : ℚ) - 0) * ((0 : ℚ) - 0) ≤
      50 * 50 ∧
    |(50 : ℚ) - 0| ≤ ((3 / 2 : ℕ) : ℚ) * 50 := by
  have hok : generatePoints 3 3 ((-50 : ℚ), (-50 : ℚ)) ((50 : ℚ), (50 : ℚ))
      (some 50) (0, 0) =
      Except.ok [((0 : ℚ), (-50 : ℚ)), (50, 0), (0, 0), (-50, 0), (0, 50)] := by
    norm_num [generatePoints, snakeRows, snakeRow, roundMeshBounds,
      floorHundredth, List.range_succ, List.filterMap_cons,
      List.filterMap_nil]
  have h := C8_round_bed 3 3 ((-50 : ℚ), (-50 : ℚ)) ((50 : ℚ), (50 : ℚ)) 50 50
    (0, 0) [((0 : ℚ), (-50 : ℚ)), (50, 0), (0, 0), (-50, 0), (0, 50)] rfl
    (by norm_num [floorHundredth]) hok
  have hm : ((50 : ℚ), (0 : ℚ)) ∈
      [((0 : ℚ), (-50 : ℚ)), (50, 0), (0, 0), (-50, 0), (0, 50)] := by
    simp
  obtain ⟨hd, hax, hay⟩ := h.2.2 (50, 0) hm
  exact ⟨h.2.1, hd, hax⟩

/-! ### The height map: `ZMesh` lookup, ranges, and `BedMesh.set_mesh` -/

/-- Minimum of a list of heights (`min(x)` in Python; matrices are
nonempty, so the `[]` value is never reached). -/
def listMin : List ℚ → ℚ
  | [] => 0
  | x :: xs => xs.foldl min x

/-- Maximum of a list of heights (`max(x)` in Python). -/
def listMax : List ℚ → ℚ
  | [] => 0
  | x :: xs => xs.foldl max x

/-- `ZMesh.get_z_range`: `(min of row minima, max of row maxima)` over the
dense mesh matrix. -/
def get_z_range (m : List (List ℚ)) : ℚ × ℚ :=
  (listMin (m.map listMin), listMax (m.map listMax))

/-- Round-half-to-even at 2 decimal places, the semantics of Python's
`round(avg_z, 2)` on an exact value. -/
def roundHalfEven2 (q : ℚ) : ℚ :=
  let s := q * 100
  let f : ℤ := ⌊s⌋
  let r := s - (f : ℚ)
  (if r < 1 / 2 then (f : ℚ)
   else if r > 1 / 2 then (f : ℚ) + 1
   else if f % 2 = 0 then (f : ℚ) else (f : ℚ) + 1) / 100

/-- `ZMesh.get_z_average`: mean of all dense-grid heights, rounded to the
nearest hundredth. -/
def get_z_average (m : List (List ℚ)) : ℚ :=
  roundHalfEven2 ((m.map (fun row => row.sum)).sum /
    ((m.map (fun row => (row.length : ℚ))).sum))

/-- `ZMesh._get_linear_index`: cell index by floored division clamped to
`[0, mesh_cnt - 2]`, and local parameter `t` clamped to `[0, 1]`. -/
def get_linear_index (coord mesh_min mesh_dist : ℚ) (mesh_cnt : ℕ) :
    ℚ × ℕ :=
  let idx : ℤ := constrainI (⌊(coord - mesh_min) / mesh_dist⌋) 0
    ((mesh_cnt : ℤ) - 2)
  ((constrain ((coord - (mesh_min + mesh_dist * (idx : ℚ))) / mesh_dist) 0 1),
    idx.toNat)

/-- `ZMesh.calc_z` for a present mesh matrix: bilinear interpolation of
the four surrounding dense-grid values, after translating the lookup
point by the mesh offsets. -/
def calc_z (tbl : ℕ → ℕ → ℚ) (xmin xdist : ℚ) (xcnt : ℕ) (ymin ydist : ℚ)
    (ycnt : ℕ) (offx offy x y : ℚ) : ℚ :=
  let lx := get_linear_index (x + offx) xmin xdist xcnt
  let ly := get_linear_index (y + offy) ymin ydist ycnt
  lerp ly.1 (lerp lx.1 (tbl ly.2 lx.2) (tbl ly.2 (lx.2 + 1)))
    (lerp lx.1 (tbl (ly.2 + 1) lx.2) (tbl (ly.2 + 1) (lx.2 + 1)))

/-- Python list indexing for a matrix stored as a list of rows (all
accesses the source performs are in bounds). -/
def matLookup (m : List (List ℚ)) (j i : ℕ) : ℚ := (m.getD j []).getD i 0

/-- State of `BedMesh` relevant to `set_mesh`; the installed mesh is
represented by its dense matrix. -/
structure BedMeshState where
  fade_start : ℚ
  fade_end : ℚ
  fade_dist : ℚ
  base_fade_target : Option ℚ
  fade_target : ℚ
  tool_offset : ℚ
  z_mesh : Option (List (List ℚ))

/-- The error epilogue shared by both `set_mesh` validation failures:
the source sets `self.z_mesh = None; self.fade_target = 0.0` and then
raises. -/
def setMeshFail (st : BedMeshState) (msg : String) :
    BedMeshState × Option String :=
  ({ st with z_mesh := none, fade_target := 0 }, some msg)

/-- The mesh-range-vs-fade-band check of `set_mesh` (lines 183–192),
followed by the success epilogue (lines 195–196) when it passes. -/
def setMeshRangeCheck (st : BedMeshState) (m : List (List ℚ)) :
    BedMeshState × Option String :=
  if st.fade_dist ≤ max |(get_z_range m).1| |(get_z_range m).2| then
    setMeshFail st "bed_mesh: Mesh extends outside of the fade range"
  else
    ({ st with tool_offset := 0, z_mesh := some m }, none)

/-- `BedMesh.set_mesh`: validates the fade target and the fade band when a
mesh is installed with fading enabled; on a validation failure the mesh
slot is cleared and an error is raised; on success the mesh is installed
and `tool_offset` reset. -/
def set_mesh (st : BedMeshState) (mesh : Option (List (List ℚ))) :
    BedMeshState × Option String :=
  match mesh with
  | some m =>
    if st.fade_end ≠ FADE_DISABLE then
      match st.base_fade_target with
      | none => setMeshRangeCheck { st with fade_target := get_z_average m } m
      | some bft =>
        if ¬((get_z_range m).1 ≤ bft ∧ bft ≤ (get_z_range m).2) ∧ bft ≠ 0 then
          setMeshFail { st with fade_target := bft }
            "bed_mesh: ERROR, fade_target lies outside of mesh z range"
        else setMeshRangeCheck { st with fade_target := bft } m
    else
      ({ st with fade_target := 0, tool_offset := 0, z_mesh := some m }, none)
  | none => ({ st with fade_target := 0, tool_offset := 0, z_mesh := none }, none)

/-- C2 counterexample: with fading enabled (`fade_start=1, fade_end=10`)
and a mesh `[[7]]` active, installing a mesh whose height range `[-20,20]`
exceeds the fade band raises an error — but the previously active mesh
does **not** remain active: the mesh slot is cleared to `none`. -/
theorem C2_set_mesh_counterexample :
    set_mesh ⟨1, 10, 9, none, 0, 0, some [[7]]⟩ (some [[-20, 20]]) =
      (⟨1, 10, 9, none, 0, 0, none⟩,
        some "bed_mesh: Mesh extends outside of the fade range") ∧
    (set_mesh ⟨1, 10, 9, none, 0, 0, some [[7]]⟩
        (some [[-20, 20]])).1.z_mesh ≠
      (⟨1, 10, 9, none, 0, 0, some [[7]]⟩ : BedMeshState).z_mesh := by
  have heval : set_mesh ⟨1, 10, 9, none, 0, 0, some [[7]]⟩
      (some [[-20, 20]]) =
      (⟨1, 10, 9, none, 0, 0, none⟩,
        some "bed_mesh: Mesh extends outside of the fade range") := by
    norm_num [set_mesh, setMeshRangeCheck, setMeshFail, get_z_range,
      get_z_average, roundHalfEven2, listMin, listMax, FADE_DISABLE]
  refine ⟨heval, ?_⟩
  rw [heval]
  simp

/-- C2 (amended): when installing a new mesh fails its fade-band
validation the installation is rejected with an error and the new mesh is
never installed — but instead of leaving the prior state unchanged, the
code clears the active mesh (`z_mesh = None`) and resets `fade_target`
to 0 before raising; a successful installation installs exactly the new
mesh. -/
theorem C2_set_mesh_rejects (st : BedMeshState) (m : List (List ℚ)) :
    (∀ st' err, set_mesh st (some m) = (st', some err) →
      st'.z_mesh = none ∧ st'.fade_target = 0 ∧
      st'.fade_start = st.fade_start ∧ st'.fade_end = st.fade_end ∧
      st'.fade_dist = st.fade_dist ∧ st'.tool_offset = st.tool_offset) ∧
    (∀ st', set_mesh st (some m) = (st', (none : Option String)) →
      st'.z_mesh = some m ∧ st'.tool_offset = 0) := by
  constructor
  · intro st' err heq
    unfold set_mesh at heq
    dsimp only at heq
    split_ifs at heq with hD
    · cases hb : st.base_fade_target with
      | none =>
        rw [hb] at heq
        unfold setMeshRangeCheck setMeshFail at heq
        dsimp only at heq
        split_ifs at heq with hr
        · injection heq with h1 h2
          subst h1
          simp
        · injection heq with h1 h2
          exact absurd h2 (by simp)
      | some bft =>
        rw [hb] at heq
        dsimp only at heq
        split_ifs at heq with ht
        · unfold setMeshFail at heq
          injection heq with h1 h2
          subst h1
          simp
        · unfold setMeshRangeCheck setMeshFail at heq
          dsimp only at heq
          split_ifs at heq with hr
          · injection heq with h1 h2
            subst h1
            simp
          · injection heq with h1 h2
            exact absurd h2 (by simp)
    · injection heq with h1 h2
      exact absurd h2 (by simp)
  · intro st' heq
    unfold set_mesh at heq
    dsimp only at heq
    split_ifs at heq with hD
    · cases hb : st.base_fade_target with
      | none =>
        rw [hb] at heq
        unfold setMeshRangeCheck setMeshFail at heq
        dsimp only at heq
        split_ifs at heq with hr
        · injection heq with h1 h2
          exact absurd h2 (by simp)
        · injection heq with h1 h2
          subst h1
          simp
      | some bft =>
        rw [hb] at heq
        dsimp only at heq
        split_ifs at heq with ht
        · unfold setMeshFail at heq
          injection heq with h1 h2
          exact absurd h2 (by simp)
        · unfold setMeshRangeCheck setMeshFail at heq
          dsimp only at heq
          split_ifs at heq with hr
          · injection heq with h1 h2
            exact absurd h2 (by simp)
          · injection heq with h1 h2
            subst h1
            simp
    · injection heq with h1 h2
      subst h1
      simp

/-- Witness for C2: the failing installation above leaves `z_mesh = none`
with `fade_target = 0`, and installing `[[1]]` into a no-mesh state with a
fade band that fits succeeds and installs exactly `[[1]]`. -/
theorem C2_set_mesh_rejects_witness :
    (set_mesh ⟨1, 10, 9, none, 0, 0, some [[7]]⟩
      (some [[-20, 20]])).1.z_mesh = none ∧
    (set_mesh ⟨1, 10, 9, none, 0, 0, some [[7]]⟩
      (some [[-20, 20]])).1.fade_target = 0 ∧
    (set_mesh ⟨1, 10, 9, none, 0, 0, none⟩ (some [[1]])).1.z_mesh =
      some [[1]] := by
  have heval : set_mesh ⟨1, 10, 9, none, 0, 0, some [[7]]⟩
      (some [[-20, 20]]) =
      (⟨1, 10, 9, none, 0, 0, none⟩,
        some "bed_mesh: Mesh extends outside of the fade range") := by
    norm_num [set_mesh, setMeshRangeCheck, setMeshFail, get_z_range,
      get_z_average, roundHalfEven2, listMin, listMax, FADE_DISABLE]
  have heval2 : set_mesh ⟨1, 10, 9, none, 0, 0, none⟩ (some [[1]]) =
      (⟨1, 10, 9, none, 1, 0, some [[1]]⟩, (none : Option String)) := by
    norm_num [set_mesh, setMeshRangeCheck, setMeshFail, get_z_range,
      get_z_average, roundHalfEven2, listMin, listMax, FADE_DISABLE]
  have h1 := (C2_set_mesh_rejects ⟨1, 10, 9, none, 0, 0, some [[7]]⟩
    [[-20, 20]]).1 _ _ heval
  have h2 := (C2_set_mesh_rejects ⟨1, 10, 9, none, 0, 0, none⟩ [[1]]).2 _
    heval2
  exact ⟨h1.1, h1.2.1, h2.1⟩

/-! ### `ZMesh.set_zero_reference` and the `probed_matrix`/`mesh_matrix`
aliasing of the `direct` sampler -/

/-- A `ZMesh`'s two matrix fields modelled with object identity: in
CPython, `build_mesh` stores the input list object into `probed_matrix`
and the `direct` sampler then assigns that *same object* to
`mesh_matrix` (`self.mesh_matrix = z_matrix`), while the lagrange and
bicubic samplers allocate a fresh list.  `probed_matrix` always refers
to `cellA`; `mesh_matrix` refers to `cellA` exactly when `meshRefA`. -/
structure ZMeshObj where
  cellA : List (List ℚ)
  cellB : List (List ℚ)
  meshRefA : Bool

/-- The value of `self.probed_matrix`. -/
def probedMatrix (o : ZMeshObj) : List (List ℚ) := o.cellA

/-- The value of `self.mesh_matrix`. -/
def meshMatrix (o : ZMeshObj) : List (List ℚ) :=
  if o.meshRefA then o.cellA else o.cellB

/-- `build_mesh` with the `direct` algorithm (`_sample_direct`): both
names refer to one object. -/
def buildMeshDirect (z : List (List ℚ)) : ZMeshObj := ⟨z, [], true⟩

/-- `build_mesh` with an interpolating algorithm: `probed_matrix` is the
input object, `mesh_matrix` a freshly allocated dense matrix `d`. -/
def buildMeshInterp (z d : List (List ℚ)) : ZMeshObj := ⟨z, d, false⟩

/-- Subtract `offset` from every entry of the list object a reference
points to (`true` = `cellA`), as the nested loops of
`set_zero_reference` do for one `matrix`. -/
def subtractAtRef (o : ZMeshObj) (refA : Bool) (offset : ℚ) : ZMeshObj :=
  if refA then
    { o with cellA := o.cellA.map (fun row => row.map (fun v => v - offset)) }
  else
    { o with cellB := o.cellB.map (fun row => row.map (fun v => v - offset)) }

/-- `ZMesh.calc_z` of an object, geometry given explicitly, mesh offsets
at their initial `[0, 0]`. -/
def zmeshCalcZ (o : ZMeshObj) (xmin xdist : ℚ) (xcnt : ℕ) (ymin ydist : ℚ)
    (ycnt : ℕ) (x y : ℚ) : ℚ :=
  calc_z (matLookup (meshMatrix o)) xmin xdist xcnt ymin ydist ycnt 0 0 x y

/-- `ZMesh.set_zero_reference(xpos, ypos)`: compute the height at the
reference point once, then iterate `for matrix in [self.probed_matrix,
self.mesh_matrix]` subtracting that offset from each referenced list
object in turn.  Under `direct` both names refer to the same object,
which is therefore shifted twice. -/
def setZeroReference (o : ZMeshObj) (xmin xdist : ℚ) (xcnt : ℕ)
    (ymin ydist : ℚ) (ycnt : ℕ) (xpos ypos : ℚ) : ZMeshObj :=
  subtractAtRef
    (subtractAtRef o true (zmeshCalcZ o xmin xdist xcnt ymin ydist ycnt
      xpos ypos))
    o.meshRefA
    (zmeshCalcZ o xmin xdist xcnt ymin ydist ycnt xpos ypos)

/-- C4: on a flat `direct` mesh of height 1 over `[0,10]²`,
`set_zero_reference(0,0)` leaves `height_at(0,0) = -1`, not 0: with the
`direct` sampler `mesh_matrix` *is* `probed_matrix`, so the offset is
subtracted twice from the shared object.  With distinct objects (the
interpolating samplers) the same call correctly yields 0. -/
theorem C4_zero_reference_direct_aliasing :
    zmeshCalcZ (buildMeshDirect [[1, 1], [1, 1]]) 0 10 2 0 10 2 0 0 = 1 ∧
    zmeshCalcZ (setZeroReference (buildMeshDirect [[1, 1], [1, 1]])
      0 10 2 0 10 2 0 0) 0 10 2 0 10 2 0 0 = -1 ∧
    zmeshCalcZ (setZeroReference (buildMeshDirect [[1, 1], [1, 1]])
      0 10 2 0 10 2 0 0) 0 10 2 0 10 2 0 0 ≠ 0 ∧
    zmeshCalcZ (setZeroReference
      (buildMeshInterp [[1, 1], [1, 1]] [[1, 1], [1, 1]])
      0 10 2 0 10 2 0 0) 0 10 2 0 10 2 0 0 = 0 := by
  norm_num [zmeshCalcZ, setZeroReference, subtractAtRef, buildMeshDirect,
    buildMeshInterp, meshMatrix, calc_z, get_linear_index, matLookup,
    constrain, constrainI, lerp]

/-! ### Dense-grid sampling: `ZMesh._sample_direct`, `_sample_lagrange`,
`_sample_bicubic`, and exactness of `calc_z` at the sample nodes.

Dense matrices are represented as functions `row → col → ℚ`; the Python
in-place passes are staged functionally: the X pass only writes entries
`(j, i)` with `j % y_mult = 0, i % x_mult ≠ 0` while reading only columns
that are multiples of `x_mult` (unchanged by that pass), and the Y pass
only writes rows `j % y_mult ≠ 0` while reading rows that are multiples
of `y_mult` (unchanged by that pass), so the staged functions compute the
same values as the sequential loops. -/

/-- The probe/mesh parameters a `ZMesh` is built from. -/
structure MeshParams where
  min_x : ℚ
  max_x : ℚ
  min_y : ℚ
  max_y : ℚ
  x_count : ℕ
  y_count : ℕ
  mesh_x_pps : ℕ
  mesh_y_pps : ℕ
  tension : ℚ

/-- `self.x_mult = mesh_x_pps + 1`. -/
def x_mult (p : MeshParams) : ℕ := p.mesh_x_pps + 1

/-- `self.y_mult = mesh_y_pps + 1`. -/
def y_mult (p : MeshParams) : ℕ := p.mesh_y_pps + 1

/-- `self.mesh_x_count = (x_count - 1) * mesh_x_pps + x_count`. -/
def mesh_x_count (p : MeshParams) : ℕ :=
  (p.x_count - 1) * p.mesh_x_pps + p.x_count

/-- `self.mesh_y_count = (y_count - 1) * mesh_y_pps + y_count`. -/
def mesh_y_count (p : MeshParams) : ℕ :=
  (p.y_count - 1) * p.mesh_y_pps + p.y_count

/-- `self.mesh_x_dist = (mesh_x_max - mesh_x_min) / (mesh_x_count - 1)`. -/
def mesh_x_dist (p : MeshParams) : ℚ :=
  (p.max_x - p.min_x) / ((mesh_x_count p : ℚ) - 1)

/-- `self.mesh_y_dist = (mesh_y_max - mesh_y_min) / (mesh_y_count - 1)`. -/
def mesh_y_dist (p : MeshParams) : ℚ :=
  (p.max_y - p.min_y) / ((mesh_y_count p : ℚ) - 1)

/-- `ZMesh.get_x_coordinate(index)`. -/
def get_x_coordinate (p : MeshParams) (idx : ℕ) : ℚ :=
  p.min_x + mesh_x_dist p * (idx : ℚ)

/-- `ZMesh.get_y_coordinate(index)`. -/
def get_y_coordinate (p : MeshParams) (idx : ℕ) : ℚ :=
  p.min_y + mesh_y_dist p * (idx : ℚ)

/-- The initial dense matrix of `_sample_lagrange`/`_sample_bicubic`:
`0.0 if ((i % x_mult) or (j % y_mult)) else z_matrix[j // y_mult][i // x_mult]`. -/
def initSampleMat (p : MeshParams) (z : ℕ → ℕ → ℚ) : ℕ → ℕ → ℚ :=
  fun j i =>
    if i % x_mult p ≠ 0 ∨ j % y_mult p ≠ 0 then 0
    else z (j / y_mult p) (i / x_mult p)

/-- `ZMesh._get_lagrange_coords`, X axis. -/
def lagrangeXpts (p : MeshParams) : List ℚ :=
  (List.range p.x_count).map (fun i => get_x_coordinate p (i * x_mult p))

/-- `ZMesh._get_lagrange_coords`, Y axis. -/
def lagrangeYpts (p : MeshParams) : List ℚ :=
  (List.range p.y_count).map (fun j => get_y_coordinate p (j * y_mult p))

/-- `ZMesh._calc_lagrange(lpts, c, ...)`: the closed-form Lagrange sum
`Σᵢ zᵢ · Πⱼ≠ᵢ (c - xⱼ) / Πⱼ≠ᵢ (xᵢ - xⱼ)`, with `zᵢ` read through
`zval` (the matrix entry at the i-th sample index along the axis). -/
def calc_lagrange (lpts : List ℚ) (c : ℚ) (zval : ℕ → ℚ) : ℚ :=
  (List.range lpts.length).foldl (fun total i =>
    total + zval i *
      ((List.range lpts.length).foldl
        (fun n j => if j = i then n else n * (c - lpts.getD j 0)) 1) /
      ((List.range lpts.length).foldl
        (fun d j => if j = i then d else d * (lpts.getD i 0 - lpts.getD j 0))
        1)) 0

/-- X pass of `_sample_lagrange`: refine columns of the rows that carry
probed values. -/
def sampleLagrangeX (p : MeshParams) (M : ℕ → ℕ → ℚ) : ℕ → ℕ → ℚ :=
  fun j i =>
    if j % y_mult p = 0 ∧ i % x_mult p ≠ 0 then
      calc_lagrange (lagrangeXpts p) (get_x_coordinate p i)
        (fun k => M j (k * x_mult p))
    else M j i

/-- Y pass of `_sample_lagrange`: refine the remaining rows of every
column, through the X-refined values. -/
def sampleLagrangeY (p : MeshParams) (M : ℕ → ℕ → ℚ) : ℕ → ℕ → ℚ :=
  fun j i =>
    if j % y_mult p ≠ 0 then
      calc_lagrange (lagrangeYpts p) (get_y_coordinate p j)
        (fun k => M (k * y_mult p) i)
    else M j i

/-- `ZMesh._sample_lagrange`. -/
def sampleLagrange (p : MeshParams) (z : ℕ → ℕ → ℚ) : ℕ → ℕ → ℚ :=
  sampleLagrangeY p (sampleLagrangeX p (initSampleMat p z))

/-- The control-point search loop of `_get_x_ctl_pts`/`_get_y_ctl_pts`:
first `i in range(mult, last_pt, mult)` with `x > i and x < i + mult`. -/
def findCtlIdx (x mult last_pt : ℕ) : Option ℕ :=
  (List.range' mult ((last_pt - mult + (mult - 1)) / mult) mult).find?
    (fun i => decide (x > i ∧ x < i + mult))

/-- `ZMesh._cardinal_spline(p, tension)` on `(p0, p1, p2, p3, t)`. -/
def cardinalSpline (q : ℚ × ℚ × ℚ × ℚ × ℚ) (tension : ℚ) : ℚ :=
  q.2.1 * (2 * (q.2.2.2.2 * q.2.2.2.2 * q.2.2.2.2) -
      3 * (q.2.2.2.2 * q.2.2.2.2) + 1) +
    q.2.2.1 * (-2 * (q.2.2.2.2 * q.2.2.2.2 * q.2.2.2.2) +
      3 * (q.2.2.2.2 * q.2.2.2.2)) +
    (tension * (q.2.2.1 - q.1)) * (q.2.2.2.2 * q.2.2.2.2 * q.2.2.2.2 -
      2 * (q.2.2.2.2 * q.2.2.2.2) + q.2.2.2.2) +
    (tension * (q.2.2.2.1 - q.2.1)) * (q.2.2.2.2 * q.2.2.2.2 * q.2.2.2.2 -
      q.2.2.2.2 * q.2.2.2.2)

/-- `ZMesh._get_x_ctl_pts`: control points and local parameter for an X
position, duplicating the outer neighbor at the boundaries; the
not-found fall-through raises `BedMeshError` in the source (defensive,
unreachable) and is modelled as zeros. -/
def getXCtlPts (p : MeshParams) (M : ℕ → ℕ → ℚ) (x y : ℕ) :
    ℚ × ℚ × ℚ × ℚ × ℚ :=
  if x < x_mult p then
    (M y 0, M y 0, M y (x_mult p), M y (2 * x_mult p),
      (x : ℚ) / (x_mult p : ℚ))
  else if x > mesh_x_count p - 1 - x_mult p then
    (M y (mesh_x_count p - 1 - x_mult p - x_mult p),
      M y (mesh_x_count p - 1 - x_mult p),
      M y (mesh_x_count p - 1 - x_mult p + x_mult p),
      M y (mesh_x_count p - 1 - x_mult p + x_mult p),
      ((x : ℚ) - ((mesh_x_count p - 1 - x_mult p : ℕ) : ℚ)) / (x_mult p : ℚ))
  else
    match findCtlIdx x (x_mult p) (mesh_x_count p - 1 - x_mult p) with
    | some i =>
      (M y (i - x_mult p), M y i, M y (i + x_mult p), M y (i + 2 * x_mult p),
        ((x : ℚ) - (i : ℚ)) / (x_mult p : ℚ))
    | none => (0, 0, 0, 0, 0)

/-- `ZMesh._get_y_ctl_pts`. -/
def getYCtlPts (p : MeshParams) (M : ℕ → ℕ → ℚ) (x y : ℕ) :
    ℚ × ℚ × ℚ × ℚ × ℚ :=
  if y < y_mult p then
    (M 0 x, M 0 x, M (y_mult p) x, M (2 * y_mult p) x,
      (y : ℚ) / (y_mult p : ℚ))
  else if y > mesh_y_count p - 1 - y_mult p then
    (M (mesh_y_count p - 1 - y_mult p - y_mult p) x,
      M (mesh_y_count p - 1 - y_mult p) x,
      M (mesh_y_count p - 1 - y_mult p + y_mult p) x,
      M (mesh_y_count p - 1 - y_mult p + y_mult p) x,
      ((y : ℚ) - ((mesh_y_count p - 1 - y_mult p : ℕ) : ℚ)) / (y_mult p : ℚ))
  else
    match findCtlIdx y (y_mult p) (mesh_y_count p - 1 - y_mult p) with
    | some i =>
      (M (i - y_mult p) x, M i x, M (i + y_mult p) x, M (i + 2 * y_mult p) x,
        ((y : ℚ) - (i : ℚ)) / (y_mult p : ℚ))
    | none => (0, 0, 0, 0, 0)

/-- X pass of `_sample_bicubic`. -/
def sampleBicubicX (p : MeshParams) (M : ℕ → ℕ → ℚ) : ℕ → ℕ → ℚ :=
  fun j i =>
    if j % y_mult p = 0 ∧ i % x_mult p ≠ 0 then
      cardinalSpline (getXCtlPts p M i j) p.tension
    else M j i

/-- Y pass of `_sample_bicubic`. -/
def sampleBicubicY (p : MeshParams) (M : ℕ → ℕ → ℚ) : ℕ → ℕ → ℚ :=
  fun j i =>
    if j % y_mult p ≠ 0 then
      cardinalSpline (getYCtlPts p M i j) p.tension
    else M j i

/-- `ZMesh._sample_bicubic`. -/
def sampleBicubic (p : MeshParams) (z : ℕ → ℕ → ℚ) : ℕ → ℕ → ℚ :=
  sampleBicubicY p (sampleBicubicX p (initSampleMat p z))

/-- The three interpolation algorithms of `ZMesh.__init__`. -/
inductive MeshAlgo : Type
  | lagrange : MeshAlgo
  | bicubic : MeshAlgo
  | direct : MeshAlgo

/-- `self._sample`: dispatch on the configured algorithm
(`_sample_direct` stores the probed matrix verbatim). -/
def sampleAlgo (a : MeshAlgo) (p : MeshParams) (z : ℕ → ℕ → ℚ) :
    ℕ → ℕ → ℚ :=
  match a with
  | MeshAlgo.direct => z
  | MeshAlgo.lagrange => sampleLagrange p z
  | MeshAlgo.bicubic => sampleBicubic p z

theorem get_linear_index_node (mmin d : ℚ) (cnt k : ℕ) (hd : 0 < d)
    (h2 : 2 ≤ cnt) (hk : k < cnt) :
    get_linear_index (mmin + d * (k : ℚ)) mmin d cnt =
      if k + 1 < cnt then ((0 : ℚ), k) else ((1 : ℚ), k - 1) := by
  unfold get_linear_index constrainI constrain
  dsimp only
  have hd0 : d ≠ 0 := ne_of_gt hd
  have hdiv : (mmin + d * (k : ℚ) - mmin) / d = (k : ℚ) := by
    field_simp
  rw [hdiv, Int.floor_natCast]
  by_cases hke : k + 1 < cnt
  · rw [if_pos hke]
    have hidx : min ((cnt : ℤ) - 2) (max 0 (k : ℤ)) = (k : ℤ) := by
      rw [max_eq_right (Int.ofNat_nonneg k)]
      rw [min_eq_right]
      omega
    rw [hidx]
    have ht : (mmin + d * (k : ℚ) - (mmin + d * (((k : ℤ) : ℚ)))) / d = 0 := by
      push_cast
      field_simp
    rw [ht]
    have : min (1 : ℚ) (max 0 0) = 0 := by norm_num
    rw [this, Int.toNat_natCast]
  · rw [if_neg hke]
    have hk1 : k = cnt - 1 := by omega
    have hidx : min ((cnt : ℤ) - 2) (max 0 (k : ℤ)) = (cnt : ℤ) - 2 := by
      rw [max_eq_right (Int.ofNat_nonneg k)]
      rw [min_eq_left]
      omega
    rw [hidx]
    have hc2 : (((cnt : ℤ) - 2 : ℤ) : ℚ) = (cnt : ℚ) - 2 := by push_cast; ring
    have ht : (mmin + d * (k : ℚ) - (mmin + d * (((cnt : ℤ) - 2 : ℤ) : ℚ))) /
        d = 1 := by
      rw [hc2]
      have hkc : (k : ℚ) = (cnt : ℚ) - 1 := by
        have : ((k : ℕ) : ℚ) + 1 = ((cnt : ℕ) : ℚ) := by
          exact_mod_cast congrArg (Nat.cast : ℕ → ℚ) (by omega : k + 1 = cnt)
        linarith
      rw [hkc]
      field_simp
      ring
    rw [ht]
    have h1 : min (1 : ℚ) (max 0 1) = 1 := by norm_num
    rw [h1]
    congr 1
    omega

theorem calc_z_node (tbl : ℕ → ℕ → ℚ) (xmin xdist : ℚ) (xcnt : ℕ)
    (ymin ydist : ℚ) (ycnt : ℕ) (k l : ℕ) (hdx : 0 < xdist)
    (hdy : 0 < ydist) (hx2 : 2 ≤ xcnt) (hy2 : 2 ≤ ycnt) (hk : k < xcnt)
    (hl : l < ycnt) :
    calc_z tbl xmin xdist xcnt ymin ydist ycnt 0 0
      (xmin + xdist * (k : ℚ)) (ymin + ydist * (l : ℚ)) = tbl l k := by
  unfold calc_z
  rw [add_zero, add_zero]
  rw [get_linear_index_node xmin xdist xcnt k hdx hx2 hk,
    get_linear_index_node ymin ydist ycnt l hdy hy2 hl]
  unfold lerp
  split_ifs with h1 h2 h3
  · dsimp only
    ring
  · dsimp only
    rw [show l - 1 + 1 = l by omega]
    ring
  · dsimp only
    rw [show k - 1 + 1 = k by omega]
    ring
  · dsimp only
    rw [show k - 1 + 1 = k by omega, show l - 1 + 1 = l by omega]
    ring

theorem x_mult_pos (p : MeshParams) : 0 < x_mult p := Nat.succ_pos _

theorem y_mult_pos (p : MeshParams) : 0 < y_mult p := Nat.succ_pos _

theorem initSampleMat_node (p : MeshParams) (z : ℕ → ℕ → ℚ) (i j : ℕ) :
    initSampleMat p z (j * y_mult p) (i * x_mult p) = z j i := by
  unfold initSampleMat
  rw [if_neg (by simp [Nat.mul_mod_left])]
  rw [Nat.mul_div_cancel _ (y_mult_pos p), Nat.mul_div_cancel _ (x_mult_pos p)]

theorem sampleLagrange_node (p : MeshParams) (z : ℕ → ℕ → ℚ) (i j : ℕ) :
    sampleLagrange p z (j * y_mult p) (i * x_mult p) = z j i := by
  unfold sampleLagrange sampleLagrangeY sampleLagrangeX
  rw [if_neg (by simp [Nat.mul_mod_left])]
  rw [if_neg (by simp [Nat.mul_mod_left])]
  exact initSampleMat_node p z i j

theorem sampleBicubic_node (p : MeshParams) (z : ℕ → ℕ → ℚ) (i j : ℕ) :
    sampleBicubic p z (j * y_mult p) (i * x_mult p) = z j i := by
  unfold sampleBicubic sampleBicubicY sampleBicubicX
  rw [if_neg (by simp [Nat.mul_mod_left])]
  rw [if_neg (by simp [Nat.mul_mod_left])]
  exact initSampleMat_node p z i j

theorem mesh_x_count_ge (p : MeshParams) : p.x_count ≤ mesh_x_count p :=
  Nat.le_add_left _ _

theorem mesh_y_count_ge (p : MeshParams) : p.y_count ≤ mesh_y_count p :=
  Nat.le_add_left _ _

theorem node_idx_lt_x (p : MeshParams) (i : ℕ) (h1 : 1 ≤ p.x_count)
    (hi : i < p.x_count) : i * x_mult p < mesh_x_count p := by
  unfold x_mult mesh_x_count
  have hle : i ≤ p.x_count - 1 := by omega
  have hmul := Nat.mul_le_mul_right (p.mesh_x_pps + 1) hle
  have hexp : (p.x_count - 1) * (p.mesh_x_pps + 1) =
      (p.x_count - 1) * p.mesh_x_pps + (p.x_count - 1) := by ring
  omega

theorem node_idx_lt_y (p : MeshParams) (j : ℕ) (h1 : 1 ≤ p.y_count)
    (hj : j < p.y_count) : j * y_mult p < mesh_y_count p := by
  unfold y_mult mesh_y_count
  have hle : j ≤ p.y_count - 1 := by omega
  have hmul := Nat.mul_le_mul_right (p.mesh_y_pps + 1) hle
  have hexp : (p.y_count - 1) * (p.mesh_y_pps + 1) =
      (p.y_count - 1) * p.mesh_y_pps + (p.y_count - 1) := by ring
  omega

/-- C1: for every built mesh (any of the three algorithms; `direct` is
only selected when both points-per-segment values are 0) and every
sample-grid index `(i, j)`, the dense matrix holds the probed value at
the node whose dense indices are the multiples `(i·x_mult, j·y_mult)`,
and the bilinear `calc_z` lookup at that node's coordinates (with zero
mesh offsets) returns exactly `SampleGrid[j][i]`. -/
theorem C1_exactness_at_samples (a : MeshAlgo) (p : MeshParams)
    (z : ℕ → ℕ → ℚ) (i j : ℕ) (hx2 : 2 ≤ p.x_count) (hy2 : 2 ≤ p.y_count)
    (hxm : p.min_x < p.max_x) (hym : p.min_y < p.max_y)
    (hi : i < p.x_count) (hj : j < p.y_count)
    (hdirect : a = MeshAlgo.direct → p.mesh_x_pps = 0 ∧ p.mesh_y_pps = 0) :
    sampleAlgo a p z (j * y_mult p) (i * x_mult p) = z j i ∧
    calc_z (sampleAlgo a p z) p.min_x (mesh_x_dist p) (mesh_x_count p)
      p.min_y (mesh_y_dist p) (mesh_y_count p) 0 0
      (get_x_coordinate p (i * x_mult p))
      (get_y_coordinate p (j * y_mult p)) = z j i := by
  have hnode : sampleAlgo a p z (j * y_mult p) (i * x_mult p) = z j i := by
    cases a with
    | direct =>
      obtain ⟨hpx, hpy⟩ := hdirect rfl
      unfold sampleAlgo x_mult y_mult
      rw [hpx, hpy, Nat.mul_one, Nat.mul_one]
    | lagrange => exact sampleLagrange_node p z i j
    | bicubic => exact sampleBicubic_node p z i j
  have hmx2 : 2 ≤ mesh_x_count p := le_trans hx2 (mesh_x_count_ge p)
  have hmy2 : 2 ≤ mesh_y_count p := le_trans hy2 (mesh_y_count_ge p)
  have hdx : 0 < mesh_x_dist p := by
    unfold mesh_x_dist
    apply div_pos (by linarith)
    have : (2 : ℚ) ≤ (mesh_x_count p : ℚ) := by exact_mod_cast hmx2
    linarith
  have hdy : 0 < mesh_y_dist p := by
    unfold mesh_y_dist
    apply div_pos (by linarith)
    have : (2 : ℚ) ≤ (mesh_y_count p : ℚ) := by exact_mod_cast hmy2
    linarith
  refine ⟨hnode, ?_⟩
  unfold get_x_coordinate get_y_coordinate
  rw [calc_z_node (sampleAlgo a p z) p.min_x (mesh_x_dist p)
    (mesh_x_count p) p.min_y (mesh_y_dist p) (mesh_y_count p)
    (i * x_mult p) (j * y_mult p) hdx hdy hmx2 hmy2
    (node_idx_lt_x p i (by omega) hi) (node_idx_lt_y p j (by omega) hj)]
  exact hnode

/-- Witness for C1: a direct-sampled 3×3 mesh on `[0,2]²` returns the
probed value `7` when looked up at node `(1, 2)`. -/
theorem C1_exactness_at_samples_witness :
    sampleAlgo MeshAlgo.direct
      ⟨0, 2, 0, 2, 3, 3, 0, 0, (1 : ℚ) / 5⟩
      (fun j i => (j * 3 + i : ℚ)) (2 * 1) (1 * 1) = 7 ∧
    calc_z (sampleAlgo MeshAlgo.direct
        ⟨0, 2, 0, 2, 3, 3, 0, 0, (1 : ℚ) / 5⟩
        (fun j i => (j * 3 + i : ℚ)))
      0 (mesh_x_dist ⟨0, 2, 0, 2, 3, 3, 0, 0, (1 : ℚ) / 5⟩)
      (mesh_x_count ⟨0, 2, 0, 2, 3, 3, 0, 0, (1 : ℚ) / 5⟩)
      0 (mesh_y_dist ⟨0, 2, 0, 2, 3, 3, 0, 0, (1 : ℚ) / 5⟩)
      (mesh_y_count ⟨0, 2, 0, 2, 3, 3, 0, 0, (1 : ℚ) / 5⟩) 0 0
      (get_x_coordinate ⟨0, 2, 0, 2, 3, 3, 0, 0, (1 : ℚ) / 5⟩ (1 * 1))
      (get_y_coordinate ⟨0, 2, 0, 2, 3, 3, 0, 0, (1 : ℚ) / 5⟩ (2 * 1)) = 7 := by
  have h := C1_exactness_at_samples MeshAlgo.direct
    ⟨0, 2, 0, 2, 3, 3, 0, 0, (1 : ℚ) / 5⟩ (fun j i => (j * 3 + i : ℚ)) 1 2
    (by norm_num) (by norm_num) (by norm_num) (by norm_num) (by norm_num)
    (by norm_num) (fun _ => ⟨rfl, rfl⟩)
  have h7 : ((fun j i => ((j : ℚ) * 3 + (i : ℚ))) 2 1 : ℚ) = 7 := by norm_num
  constructor
  · rw [show (2 * 1 : ℕ) = 2 * y_mult ⟨0, 2, 0, 2, 3, 3, 0, 0, (1 : ℚ) / 5⟩
        from rfl,
      show (1 * 1 : ℕ) = 1 * x_mult ⟨0, 2, 0, 2, 3, 3, 0, 0, (1 : ℚ) / 5⟩
        from rfl]
    rw [h.1]
    norm_num
  · rw [show (2 * 1 : ℕ) = 2 * y_mult ⟨0, 2, 0, 2, 3, 3, 0, 0, (1 : ℚ) / 5⟩
        from rfl,
      show (1 * 1 : ℕ) = 1 * x_mult ⟨0, 2, 0, 2, 3, 3, 0, 0, (1 : ℚ) / 5⟩
        from rfl]
    rw [h.2]
    norm_num

/-! ### `MoveSplitter`: incremental move segmentation.

The one operation not representable in `ℚ` is
`math.sqrt(sum([d*d for d in axes_d[:3]]))`; `build_move` therefore takes
the total move length `L` as a parameter, constrained in the theorems by
`L * L = sumSq prev next` and `0 < L`.  The `while` loop of `split` is
written with an explicit fuel argument; `split` passes `loopFuel`, and
the fuel-exhaustion branch (proved unreachable for that fuel in the
termination theorem) falls through to the end-of-move emission. -/

/-- A toolhead position `[x, y, z, e]`. -/
structure Pos where
  x : ℚ
  y : ℚ
  z : ℚ
  e : ℚ

/-- Configuration and mesh context of a `MoveSplitter`: the two config
options, the fade offset passed at mesh installation, and the installed
mesh's lookup data (for `z_mesh.calc_z`). -/
structure MoveSplitterCfg where
  split_delta_z : ℚ
  move_check_distance : ℚ
  fade_offset : ℚ
  tbl : ℕ → ℕ → ℚ
  xmin : ℚ
  xdist : ℚ
  xcnt : ℕ
  ymin : ℚ
  ydist : ℚ
  ycnt : ℕ
  offx : ℚ
  offy : ℚ

/-- `self.z_mesh.calc_z(pos[0], pos[1])`. -/
def meshCalcZ (cfg : MoveSplitterCfg) (x y : ℚ) : ℚ :=
  calc_z cfg.tbl cfg.xmin cfg.xdist cfg.xcnt cfg.ymin cfg.ydist cfg.ycnt
    cfg.offx cfg.offy x y

/-- `MoveSplitter._calc_z_offset(pos)`:
`self.z_factor * (z - offset) + offset`. -/
def calc_z_offset (cfg : MoveSplitterCfg) (factor : ℚ) (pos : Pos) : ℚ :=
  factor * (meshCalcZ cfg pos.x pos.y - cfg.fade_offset) + cfg.fade_offset

/-- The per-move state set up by `MoveSplitter.build_move`. -/
structure SplitterState where
  prev_pos : Pos
  next_pos : Pos
  current_pos : Pos
  z_factor : ℚ
  z_offset : ℚ
  traverse_complete : Bool
  distance_checked : ℚ
  total_move_length : ℚ
  axis_move_x : Bool
  axis_move_y : Bool
  axis_move_z : Bool
  axis_move_e : Bool

/-- `sum([d * d for d in axes_d[:3]])`: squared 3-D length of the move. -/
def sumSq (prev next : Pos) : ℚ :=
  (next.x - prev.x) * (next.x - prev.x) +
    (next.y - prev.y) * (next.y - prev.y) +
    (next.z - prev.z) * (next.z - prev.z)

/-- `MoveSplitter.build_move(prev_pos, next_pos, factor)`; `L` stands for
`math.sqrt(sum([d*d for d in axes_d[:3]]))`.  An axis moves when its
delta is not `isclose` to 0 with `abs_tol=1e-10`. -/
def build_move (cfg : MoveSplitterCfg) (prev next : Pos) (factor L : ℚ) :
    SplitterState :=
  { prev_pos := prev
    next_pos := next
    current_pos := prev
    z_factor := factor
    z_offset := calc_z_offset cfg factor prev
    traverse_complete := false
    distance_checked := 0
    total_move_length := L
    axis_move_x := !(isclose (next.x - prev.x) 0 1e-9 1e-10)
    axis_move_y := !(isclose (next.y - prev.y) 0 1e-9 1e-10)
    axis_move_z := !(isclose (next.z - prev.z) 0 1e-9 1e-10)
    axis_move_e := !(isclose (next.e - prev.e) 0 1e-9 1e-10) }

/-- `MoveSplitter._set_next_move(distance_from_prev)`: lerp every moving
axis to the fraction `t = distance / total_move_length`.  (The source
raises a fatal error when `t` falls outside `[0, 1]`; inside `split` the
loop maintains `0 < distance_checked < total_move_length`, so that branch
is unreachable and omitted here.) -/
def set_next_move (st : SplitterState) (distance_from_prev : ℚ) :
    SplitterState :=
  { st with current_pos :=
    { x := if st.axis_move_x then
        lerp (distance_from_prev / st.total_move_length) st.prev_pos.x
          st.next_pos.x
      else st.current_pos.x
      y := if st.axis_move_y then
        lerp (distance_from_prev / st.total_move_length) st.prev_pos.y
          st.next_pos.y
      else st.current_pos.y
      z := if st.axis_move_z then
        lerp (distance_from_prev / st.total_move_length) st.prev_pos.z
          st.next_pos.z
      else st.current_pos.z
      e := if st.axis_move_e then
        lerp (distance_from_prev / st.total_move_length) st.prev_pos.e
          st.next_pos.e
      else st.current_pos.e } }

/-- Result of the traversal `while` loop inside `split`. -/
inductive LoopResult : Type
  | emit : Pos → SplitterState → LoopResult
  | exhausted : SplitterState → LoopResult
  | fuelOut : SplitterState → LoopResult

/-- The `while` loop of `MoveSplitter.split`: advance the cursor by
`move_check_distance`; recompute the Z offset at the checkpoint; emit
`current_pos` with the offset added to Z when the offset moved by at
least `split_delta_z`, else keep walking. -/
def checkLoop (cfg : MoveSplitterCfg) : ℕ → SplitterState → LoopResult
  | 0, st =>
    if st.distance_checked + cfg.move_check_distance <
        st.total_move_length then
      LoopResult.fuelOut st
    else LoopResult.exhausted st
  | fuel + 1, st =>
    if st.distance_checked + cfg.move_check_distance <
        st.total_move_length then
      let st2 := set_next_move
        { st with distance_checked :=
            st.distance_checked + cfg.move_check_distance }
        (st.distance_checked + cfg.move_check_distance)
      if |calc_z_offset cfg st2.z_factor st2.current_pos - st2.z_offset| ≥
          cfg.split_delta_z then
        LoopResult.emit
          { st2.current_pos with z := (st2.current_pos.z +
              calc_z_offset cfg st2.z_factor st2.current_pos) }
          { st2 with z_offset := (calc_z_offset cfg st2.z_factor
              st2.current_pos) }
      else checkLoop cfg fuel st2
    else LoopResult.exhausted st

/-- The end-of-move emission of `split`: `current_pos[:] = next_pos`,
recompute the offset there, add it to Z, mark the traversal complete and
return the point. -/
def endOfMove (cfg : MoveSplitterCfg) (st : SplitterState) :
    Option Pos × SplitterState :=
  ((some { st.next_pos with z := (st.next_pos.z +
      calc_z_offset cfg st.z_factor st.next_pos) }),
    { st with
      current_pos := { st.next_pos with z := (st.next_pos.z +
        calc_z_offset cfg st.z_factor st.next_pos) }
      z_offset := calc_z_offset cfg st.z_factor st.next_pos
      traverse_complete := true })

/-- Fuel that the termination theorem proves sufficient for the loop. -/
def loopFuel (cfg : MoveSplitterCfg) (st : SplitterState) : ℕ :=
  (⌈st.total_move_length / cfg.move_check_distance⌉).toNat + 1

/-- `MoveSplitter.split()`: `None` once the traversal is complete;
otherwise run the checkpoint loop when X or Y moves (emitting an
intermediate sub-move when it fires) and fall through to the end-of-move
emission when the loop exits. -/
def split (cfg : MoveSplitterCfg) (st : SplitterState) :
    Option Pos × SplitterState :=
  if st.traverse_complete then (none, st)
  else if st.axis_move_x || st.axis_move_y then
    match checkLoop cfg (loopFuel cfg st) st with
    | LoopResult.emit pos st2 => (some pos, st2)
    | LoopResult.exhausted st2 => endOfMove cfg st2
    | LoopResult.fuelOut st2 => endOfMove cfg st2
  else endOfMove cfg st

/-- Iterate `split`, collecting emitted sub-moves, stopping at the first
`None`. -/
def splitN (cfg : MoveSplitterCfg) : ℕ → SplitterState →
    List Pos × SplitterState
  | 0, st => ([], st)
  | n + 1, st =>
    match split cfg st with
    | (some p, st2) =>
      (p :: (splitN cfg n st2).1, (splitN cfg n st2).2)
    | (none, st2) => ([], st2)

/-- The exact end point with its own freshly computed Z offset. -/
def finalPos (cfg : MoveSplitterCfg) (st : SplitterState) : Pos :=
  { st.next_pos with z := (st.next_pos.z +
      calc_z_offset cfg st.z_factor st.next_pos) }

/-- Fields of the per-move state that the checkpoint loop never writes. -/
def splitKeeps (st st2 : SplitterState) : Prop :=
  st2.prev_pos = st.prev_pos ∧ st2.next_pos = st.next_pos ∧
  st2.z_factor = st.z_factor ∧
  st2.total_move_length = st.total_move_length ∧
  st2.traverse_complete = st.traverse_complete ∧
  st2.axis_move_x = st.axis_move_x ∧ st2.axis_move_y = st.axis_move_y

theorem splitKeeps_refl (st : SplitterState) : splitKeeps st st :=
  ⟨rfl, rfl, rfl, rfl, rfl, rfl, rfl⟩

theorem splitKeeps_trans {a b c : SplitterState} (h1 : splitKeeps a b)
    (h2 : splitKeeps b c) : splitKeeps a c := by
  obtain ⟨p1, n1, f1, l1, c1, x1, y1⟩ := h1
  obtain ⟨p2, n2, f2, l2, c2, x2, y2⟩ := h2
  exact ⟨p1 ▸ p2, n1 ▸ n2, f1 ▸ f2, l1 ▸ l2, c1 ▸ c2, x1 ▸ x2, y1 ▸ y2⟩

theorem split_of_complete (cfg : MoveSplitterCfg) (st : SplitterState)
    (h : st.traverse_complete = true) : split cfg st = (none, st) := by
  unfold split
  rw [if_pos h]

theorem checkLoop_emit_delta (cfg : MoveSplitterCfg) (fuel : ℕ) :
    ∀ st p st2, checkLoop cfg fuel st = LoopResult.emit p st2 →
      |st2.z_offset - st.z_offset| ≥ cfg.split_delta_z ∧
      st2.traverse_complete = st.traverse_complete ∧
      p = { st2.current_pos with z :=
        (st2.current_pos.z + st2.z_offset) } := by
  induction fuel with
  | zero =>
    intro st p st2 heq
    unfold checkLoop at heq
    split_ifs at heq
  | succ fuel ih =>
    intro st p st2 heq
    unfold checkLoop at heq
    dsimp only at heq
    split_ifs at heq with h1 h2
    · injection heq with hp hst
      subst hp
      subst hst
      refine ⟨by simpa using h2, rfl, ?_⟩
      simp [set_next_move]
    · have hz : (set_next_move
          { st with distance_checked :=
              st.distance_checked + cfg.move_check_distance }
          (st.distance_checked + cfg.move_check_distance)).z_offset =
          st.z_offset := rfl
      have hc : (set_next_move
          { st with distance_checked :=
              st.distance_checked + cfg.move_check_distance }
          (st.distance_checked + cfg.move_check_distance)).traverse_complete =
          st.traverse_complete := rfl
      obtain ⟨ha, hb, hpp⟩ := ih _ p st2 heq
      exact ⟨by rw [hz] at ha; exact ha, by rw [hc] at hb; exact hb, hpp⟩

/-- C6: every intermediate sub-move emitted by `split` (any emission that
does not complete the traversal) carries a Z offset differing from the
previously emitted offset (`z_offset` before the call) by at least
`split_delta_z`, and the emitted point is the checkpoint with that offset
added to Z; checkpoints whose recomputed offset moves less are skipped
without emission. -/
theorem C6_intermediate_delta (cfg : MoveSplitterCfg) (st : SplitterState)
    (p : Pos) (st2 : SplitterState) (h : split cfg st = (some p, st2))
    (hc : st2.traverse_complete = false) :
    |st2.z_offset - st.z_offset| ≥ cfg.split_delta_z ∧
    p = { st2.current_pos with z := (st2.current_pos.z + st2.z_offset) } := by
  unfold split at h
  split_ifs at h with h1 h2
  · exact absurd (congrArg Prod.fst h) (by simp)
  · cases hcl : checkLoop cfg (loopFuel cfg st) st with
    | emit q st3 =>
      rw [hcl] at h
      injection h with hq hst
      injection hq with hq2
      subst hq2
      subst hst
      obtain ⟨ha, hb, hpp⟩ := checkLoop_emit_delta cfg (loopFuel cfg st) st
        _ _ hcl
      exact ⟨ha, hpp⟩
    | exhausted st3 =>
      rw [hcl] at h
      have := congrArg (fun r => r.2.traverse_complete) h
      simp only [endOfMove] at this
      rw [hc] at this
      exact absurd this (by simp)
    | fuelOut st3 =>
      rw [hcl] at h
      have := congrArg (fun r => r.2.traverse_complete) h
      simp only [endOfMove] at this
      rw [hc] at this
      exact absurd this (by simp)
  · have := congrArg (fun r => r.2.traverse_complete) h
    simp only [endOfMove] at this
    rw [hc] at this
    exact absurd this (by simp)

theorem checkLoop_dichotomy (cfg : MoveSplitterCfg)
    (hmcd : 0 ≤ cfg.move_check_distance) (fuel : ℕ) :
    ∀ st,
      (∃ st2, (checkLoop cfg fuel st = LoopResult.exhausted st2 ∨
          checkLoop cfg fuel st = LoopResult.fuelOut st2) ∧
        splitKeeps st st2) ∨
      (∃ p st2, checkLoop cfg fuel st = LoopResult.emit p st2 ∧
        splitKeeps st st2 ∧
        st.distance_checked + cfg.move_check_distance ≤
          st2.distance_checked ∧
        st2.distance_checked < st.total_move_length) := by
  induction fuel with
  | zero =>
    intro st
    left
    refine ⟨st, ?_, splitKeeps_refl st⟩
    unfold checkLoop
    split_ifs
    · right; rfl
    · left; rfl
  | succ fuel ih =>
    intro st
    unfold checkLoop
    dsimp only
    split_ifs with h1 h2
    · right
      exact ⟨_, _, rfl, ⟨rfl, rfl, rfl, rfl, rfl, rfl, rfl⟩,
        le_of_eq rfl, h1⟩
    · rcases ih (set_next_move
          { st with distance_checked :=
              st.distance_checked + cfg.move_check_distance }
          (st.distance_checked + cfg.move_check_distance)) with
        ⟨st2, hor, hk⟩ | ⟨p, st2, heq, hk, hb1, hb2⟩
      · left
        exact ⟨st2, hor,
          splitKeeps_trans ⟨rfl, rfl, rfl, rfl, rfl, rfl, rfl⟩ hk⟩
      · right
        refine ⟨p, st2, heq,
          splitKeeps_trans ⟨rfl, rfl, rfl, rfl, rfl, rfl, rfl⟩ hk, ?_, hb2⟩
        have hdc : (set_next_move
            { st with distance_checked :=
                st.distance_checked + cfg.move_check_distance }
            (st.distance_checked +
              cfg.move_check_distance)).distance_checked =
            st.distance_checked + cfg.move_check_distance := rfl
        rw [hdc] at hb1
        linarith
    · left
      exact ⟨st, Or.inl rfl, splitKeeps_refl st⟩

theorem endOfMove_spec (cfg : MoveSplitterCfg) (st : SplitterState) :
    endOfMove cfg st = (some (finalPos cfg st),
      { st with
        current_pos := finalPos cfg st
        z_offset := calc_z_offset cfg st.z_factor st.next_pos
        traverse_complete := true }) := rfl

theorem finalPos_keeps (cfg : MoveSplitterCfg) {st st2 : SplitterState}
    (hk : splitKeeps st st2) : finalPos cfg st2 = finalPos cfg st := by
  obtain ⟨_, hn, hf, _, _, _, _⟩ := hk
  unfold finalPos
  rw [hn, hf]

theorem split_step (cfg : MoveSplitterCfg) (st : SplitterState)
    (hmcd : 0 ≤ cfg.move_check_distance)
    (hc : st.traverse_complete = false) :
    (∃ st2, split cfg st = (some (finalPos cfg st), st2) ∧
      st2.traverse_complete = true) ∨
    (∃ p st2, split cfg st = (some p, st2) ∧
      st2.traverse_complete = false ∧ st2.next_pos = st.next_pos ∧
      st2.z_factor = st.z_factor ∧
      st2.total_move_length = st.total_move_length ∧
      st.distance_checked + cfg.move_check_distance ≤
        st2.distance_checked ∧
      st2.distance_checked < st.total_move_length) := by
  unfold split
  rw [if_neg (by rw [hc]; simp)]
  by_cases hxy : (st.axis_move_x || st.axis_move_y) = true
  · rw [if_pos hxy]
    rcases checkLoop_dichotomy cfg hmcd (loopFuel cfg st) st with
      ⟨st2, hor, hk⟩ | ⟨p, st2, heq, hk, hb1, hb2⟩
    · left
      have hfin := finalPos_keeps cfg hk
      cases hor with
      | inl h =>
        rw [h]
        dsimp only
        exact ⟨_, by rw [endOfMove_spec, hfin], rfl⟩
      | inr h =>
        rw [h]
        dsimp only
        exact ⟨_, by rw [endOfMove_spec, hfin], rfl⟩
    · right
      rw [heq]
      dsimp only
      obtain ⟨_, hn, hf, hL, hcompl, _, _⟩ := hk
      exact ⟨p, st2, rfl, by rw [hcompl]; exact hc, hn, hf, hL, hb1, hb2⟩
  · rw [if_neg hxy]
    left
    exact ⟨_, by rw [endOfMove_spec], rfl⟩

/-- Remaining checkpoint budget of a traversal: the number of
`move_check_distance` steps (rounded up) still fitting before the move
end. -/
def splitMeasure (cfg : MoveSplitterCfg) (st : SplitterState) : ℕ :=
  (⌈(st.total_move_length - st.distance_checked) /
    cfg.move_check_distance⌉).toNat

theorem splitMeasure_decrease (cfg : MoveSplitterCfg)
    (st st2 : SplitterState) (hmcd : 0 < cfg.move_check_distance)
    (hL : st2.total_move_length = st.total_move_length)
    (h1 : st.distance_checked + cfg.move_check_distance ≤
      st2.distance_checked)
    (h2 : st2.distance_checked < st.total_move_length) :
    splitMeasure cfg st2 < splitMeasure cfg st ∧
    1 ≤ splitMeasure cfg st2 := by
  unfold splitMeasure
  rw [hL]
  have hpos : 0 < (st.total_move_length - st2.distance_checked) /
      cfg.move_check_distance := div_pos (by linarith) hmcd
  have hceil1 : 0 < ⌈(st.total_move_length - st2.distance_checked) /
      cfg.move_check_distance⌉ := Int.ceil_pos.mpr hpos
  have hrw : (st.total_move_length - st.distance_checked) /
      cfg.move_check_distance - 1 =
      (st.total_move_length - st.distance_checked -
        cfg.move_check_distance) / cfg.move_check_distance := by
    field_simp
  have hle : (st.total_move_length - st2.distance_checked) /
      cfg.move_check_distance ≤
      (st.total_move_length - st.distance_checked) /
        cfg.move_check_distance - 1 := by
    rw [hrw, div_le_div_iff₀ hmcd hmcd]
    exact mul_le_mul_of_nonneg_right (by linarith) (by linarith)
  have hceil2 := Int.ceil_le_ceil hle
  rw [Int.ceil_sub_one] at hceil2
  omega

theorem split_reaches_complete (cfg : MoveSplitterCfg)
    (hmcd : 0 < cfg.move_check_distance) :
    ∀ n st, st.traverse_complete = false → splitMeasure cfg st ≤ n →
      ∃ k, 1 ≤ k ∧ k ≤ max 1 (splitMeasure cfg st) ∧
        (splitN cfg k st).2.traverse_complete = true ∧
        (splitN cfg k st).1.getLast? = some (finalPos cfg st) := by
  intro n
  induction n with
  | zero =>
    intro st hc hm
    rcases split_step cfg st (le_of_lt hmcd) hc with
      ⟨st2, heq, hcomp⟩ | ⟨p, st2, heq, hc2, hn, hf, hL, hb1, hb2⟩
    · refine ⟨1, le_refl 1, le_max_left 1 _, ?_, ?_⟩
      · show (splitN cfg 1 st).2.traverse_complete = true
        unfold splitN
        rw [heq]
        exact hcomp
      · show (splitN cfg 1 st).1.getLast? = some (finalPos cfg st)
        unfold splitN
        rw [heq]
        dsimp only
        rfl
    · exfalso
      have := (splitMeasure_decrease cfg st st2 hmcd hL hb1 hb2).1
      omega
  | succ n ih =>
    intro st hc hm
    rcases split_step cfg st (le_of_lt hmcd) hc with
      ⟨st2, heq, hcomp⟩ | ⟨p, st2, heq, hc2, hn, hf, hL, hb1, hb2⟩
    · refine ⟨1, le_refl 1, le_max_left 1 _, ?_, ?_⟩
      · show (splitN cfg 1 st).2.traverse_complete = true
        unfold splitN
        rw [heq]
        exact hcomp
      · show (splitN cfg 1 st).1.getLast? = some (finalPos cfg st)
        unfold splitN
        rw [heq]
        dsimp only
        rfl
    · obtain ⟨hdec, hone⟩ := splitMeasure_decrease cfg st st2 hmcd hL hb1 hb2
      obtain ⟨k, hk1, hk2, hkc, hkl⟩ := ih st2 hc2 (by omega)
      have hfin : finalPos cfg st2 = finalPos cfg st := by
        unfold finalPos
        rw [hn, hf]
      refine ⟨k + 1, by omega, by omega, ?_, ?_⟩
      · show (splitN cfg (k + 1) st).2.traverse_complete = true
        unfold splitN
        rw [heq]
        exact hkc
      · show (splitN cfg (k + 1) st).1.getLast? = some (finalPos cfg st)
        unfold splitN
        rw [heq]
        dsimp only
        cases hems : (splitN cfg k st2).1 with
        | nil => rw [hems] at hkl; simp at hkl
        | cons b l =>
          rw [hems] at hkl
          rw [List.getLast?_cons_cons]
          rw [hkl, hfin]

theorem splitN_stable (cfg : MoveSplitterCfg) :
    ∀ n k st, k ≤ n → (splitN cfg k st).2.traverse_complete = true →
      splitN cfg n st = splitN cfg k st := by
  intro n
  induction n with
  | zero =>
    intro k st hk _
    rw [Nat.le_zero.mp hk]
  | succ n ih =>
    intro k st hk hc
    cases k with
    | zero =>
      have hc0 : st.traverse_complete = true := hc
      have h0 := split_of_complete cfg st hc0
      show splitN cfg (n + 1) st = ([], st)
      unfold splitN
      rw [h0]
    | succ k =>
      cases hsp : split cfg st with
      | mk o st2 =>
        cases o with
        | some p =>
          have hc2 : (splitN cfg k st2).2.traverse_complete = true := by
            unfold splitN at hc
            rw [hsp] at hc
            exact hc
          show splitN cfg (n + 1) st = splitN cfg (k + 1) st
          unfold splitN
          rw [hsp]
          dsimp only
          rw [ih k st2 (by omega) hc2]
        | none =>
          show splitN cfg (n + 1) st = splitN cfg (k + 1) st
          unfold splitN
          rw [hsp]

theorem splitN_build_move_spec (cfg : MoveSplitterCfg) (prev next : Pos)
    (factor L : ℚ) (hmcd : 0 < cfg.move_check_distance) :
    (splitN cfg ((⌊L / cfg.move_check_distance⌋).toNat + 1)
        (build_move cfg prev next factor L)).2.traverse_complete = true ∧
    (splitN cfg ((⌊L / cfg.move_check_distance⌋).toNat + 1)
        (build_move cfg prev next factor L)).1.getLast? =
      some { next with z := (next.z + calc_z_offset cfg factor next) } := by
  have hc0 : (build_move cfg prev next factor L).traverse_complete =
      false := rfl
  have hmeas : splitMeasure cfg (build_move cfg prev next factor L) =
      (⌈L / cfg.move_check_distance⌉).toNat := by
    unfold splitMeasure build_move
    dsimp only
    rw [sub_zero]
  obtain ⟨k, hk1, hk2, hkc, hkl⟩ := split_reaches_complete cfg hmcd
    (splitMeasure cfg (build_move cfg prev next factor L))
    (build_move cfg prev next factor L) hc0 (le_refl _)
  have hNbound : max 1 (splitMeasure cfg (build_move cfg prev next factor
      L)) ≤ (⌊L / cfg.move_check_distance⌋).toNat + 1 := by
    rw [hmeas, max_le_iff]
    have hcf : ⌈L / cfg.move_check_distance⌉ ≤
        ⌊L / cfg.move_check_distance⌋ + 1 :=
      Int.ceil_le_floor_add_one _
    omega
  have hstable := splitN_stable cfg
    ((⌊L / cfg.move_check_distance⌋).toNat + 1) k
    (build_move cfg prev next factor L) (le_trans hk2 hNbound) hkc
  have hfp : finalPos cfg (build_move cfg prev next factor L) =
      { next with z := (next.z + calc_z_offset cfg factor next) } := rfl
  rw [hstable]
  exact ⟨hkc, by rw [hkl, hfp]⟩

/-- C5: for every built move of positive total 3-D length
(`L = sqrt(Σ d²)` supplied with its defining property), the sequence of
`split()` results ends with the exact end point `next_pos` carrying a
freshly computed Z offset: after at most `⌊L / move_check_distance⌋ + 1`
calls the traversal is complete, the last emitted sub-move is that end
point, and every `split()` call on a completed traversal returns
`None` leaving the state unchanged. -/
theorem C5_split_final_point (cfg : MoveSplitterCfg) (prev next : Pos)
    (factor L : ℚ) (hL : L * L = sumSq prev next) (hLpos : 0 < L)
    (hmcd : 0 < cfg.move_check_distance) :
    (∀ st, st.traverse_complete = true → split cfg st = (none, st)) ∧
    (splitN cfg ((⌊L / cfg.move_check_distance⌋).toNat + 1)
        (build_move cfg prev next factor L)).2.traverse_complete = true ∧
    (splitN cfg ((⌊L / cfg.move_check_distance⌋).toNat + 1)
        (build_move cfg prev next factor L)).1.getLast? =
      some { next with z := (next.z + calc_z_offset cfg factor next) } ∧
    split cfg (splitN cfg ((⌊L / cfg.move_check_distance⌋).toNat + 1)
        (build_move cfg prev next factor L)).2 =
      (none, (splitN cfg ((⌊L / cfg.move_check_distance⌋).toNat + 1)
        (build_move cfg prev next factor L)).2) := by
  obtain ⟨h1, h2⟩ := splitN_build_move_spec cfg prev next factor L hmcd
  exact ⟨fun st h => split_of_complete cfg st h, h1, h2,
    split_of_complete cfg _ h1⟩

theorem checkLoop_fuel_sufficient (cfg : MoveSplitterCfg)
    (hmcd : 0 < cfg.move_check_distance) (fuel : ℕ) :
    ∀ st, st.total_move_length - st.distance_checked ≤
        cfg.move_check_distance * (fuel : ℚ) →
      ∀ st2, checkLoop cfg fuel st ≠ LoopResult.fuelOut st2 := by
  induction fuel with
  | zero =>
    intro st hb st2
    unfold checkLoop
    rw [if_neg (by push_cast at hb; intro hlt; linarith)]
    simp
  | succ fuel ih =>
    intro st hb st2
    unfold checkLoop
    dsimp only
    split_ifs with h1 h2
    · simp
    · apply ih
      have hdc : (set_next_move
          { st with distance_checked :=
              st.distance_checked + cfg.move_check_distance }
          (st.distance_checked +
            cfg.move_check_distance)).distance_checked =
          st.distance_checked + cfg.move_check_distance := rfl
      have hLL : (set_next_move
          { st with distance_checked :=
              st.distance_checked + cfg.move_check_distance }
          (st.distance_checked +
            cfg.move_check_distance)).total_move_length =
          st.total_move_length := rfl
      rw [hdc, hLL]
      push_cast at hb ⊢
      linarith
    · simp

/-- C10: for every built move of positive length with
`move_check_distance ≥ 3`, each individual `split()` call terminates —
the fuel `loopFuel`, one more than `⌈L / move_check_distance⌉`
checkpoint steps, is never exhausted by the internal loop whenever the
already-checked distance is non-negative — and the whole traversal
reaches the terminal `traverse_complete` state within
`⌊L / move_check_distance⌋ + 1` emitting calls. -/
theorem C10_split_terminates (cfg : MoveSplitterCfg) (prev next : Pos)
    (factor L : ℚ) (hL : L * L = sumSq prev next) (hLpos : 0 < L)
    (hmcd3 : 3 ≤ cfg.move_check_distance) :
    (∀ st st2, 0 ≤ st.distance_checked →
      checkLoop cfg (loopFuel cfg st) st ≠ LoopResult.fuelOut st2) ∧
    (splitN cfg ((⌊L / cfg.move_check_distance⌋).toNat + 1)
        (build_move cfg prev next factor L)).2.traverse_complete =
      true := by
  have hmcd : 0 < cfg.move_check_distance := by linarith
  constructor
  · intro st st2 hdc
    apply checkLoop_fuel_sufficient cfg hmcd
    unfold loopFuel
    have h1 : st.total_move_length / cfg.move_check_distance ≤
        ((⌈st.total_move_length / cfg.move_check_distance⌉.toNat : ℤ) :
          ℚ) := by
      calc st.total_move_length / cfg.move_check_distance ≤
          ((⌈st.total_move_length / cfg.move_check_distance⌉ : ℤ) : ℚ) :=
            Int.le_ceil _
      _ ≤ _ := by exact_mod_cast Int.self_le_toNat _
    have h2 : st.total_move_length ≤ cfg.move_check_distance *
        ((⌈st.total_move_length / cfg.move_check_distance⌉.toNat : ℤ) :
          ℚ) := by
      have hm := mul_le_mul_of_nonneg_left h1 (le_of_lt hmcd)
      have hL2 : cfg.move_check_distance *
          (st.total_move_length / cfg.move_check_distance) =
          st.total_move_length := by
        field_simp
      rwa [hL2] at hm
    push_cast at h2 ⊢
    linarith
  · exact (splitN_build_move_spec cfg prev next factor L hmcd).1

/-- A concrete splitter: `split_delta_z = 0.025`,
`move_check_distance = 3`, fade offset 0, over a direct 2×2 mesh on
`[0,10]²` with heights 0 on the `y = 0` row and 1 on the `y = 10` row. -/
def splitterCfgEx : MoveSplitterCfg :=
  ⟨1 / 40, 3, 0, fun j _ => if j = 0 then 0 else 1, 0, 10, 2, 0, 10, 2,
    0, 0⟩

/-- The move `(0,0,0,0) → (0,10,0,0)` of length 10 under full fade factor. -/
def splitterStEx : SplitterState :=
  build_move splitterCfgEx ⟨0, 0, 0, 0⟩ ⟨0, 10, 0, 0⟩ 1 10

/-- Witness for C6: the first `split` call on the example move emits the
checkpoint `(0, 3)` with Z offset `0.3`, an offset change of `0.3 ≥
0.025` from the previously emitted offset 0. -/
theorem C6_intermediate_delta_witness :
    split splitterCfgEx splitterStEx =
      (some ⟨0, 3, 3 / 10, 0⟩,
        ⟨⟨0, 0, 0, 0⟩, ⟨0, 10, 0, 0⟩, ⟨0, 3, 0, 0⟩, 1, 3 / 10, false, 3,
          10, false, true, false, false⟩) ∧
    |(3 / 10 : ℚ) - splitterStEx.z_offset| ≥
      splitterCfgEx.split_delta_z := by
  have heval : split splitterCfgEx splitterStEx =
      (some ⟨0, 3, 3 / 10, 0⟩,
        ⟨⟨0, 0, 0, 0⟩, ⟨0, 10, 0, 0⟩, ⟨0, 3, 0, 0⟩, 1, 3 / 10, false, 3,
          10, false, true, false, false⟩) := by
    have habs : |(3 / 10 : ℚ)| = 3 / 10 := abs_of_nonneg (by norm_num)
    norm_num [split, splitterStEx, splitterCfgEx, build_move, loopFuel,
      checkLoop, set_next_move, calc_z_offset, meshCalcZ, calc_z,
      get_linear_index, constrain, constrainI, lerp, isclose, endOfMove,
      habs]
  have h := C6_intermediate_delta splitterCfgEx splitterStEx
    ⟨0, 3, 3 / 10, 0⟩
    ⟨⟨0, 0, 0, 0⟩, ⟨0, 10, 0, 0⟩, ⟨0, 3, 0, 0⟩, 1, 3 / 10, false, 3, 10,
      false, true, false, false⟩ heval rfl
  exact ⟨heval, h.1⟩

/-- Witness for C5: on the example move (`⌊10/3⌋ + 1 = 4` calls) the
traversal completes and the last emitted sub-move is the exact end point
`(0, 10)` with its freshly computed Z offset 1. -/
theorem C5_split_final_point_witness :
    (splitN splitterCfgEx 4 splitterStEx).2.traverse_complete = true ∧
    (splitN splitterCfgEx 4 splitterStEx).1.getLast? =
      some ⟨0, 10, 1, 0⟩ := by
  have h := C5_split_final_point splitterCfgEx ⟨0, 0, 0, 0⟩
    ⟨0, 10, 0, 0⟩ 1 10 (by norm_num [sumSq]) (by norm_num)
    (by norm_num [splitterCfgEx])
  have hN : (⌊(10 : ℚ) / splitterCfgEx.move_check_distance⌋).toNat + 1 =
      4 := by
    norm_num [splitterCfgEx]
    decide
  constructor
  · have h2 := h.2.1
    rw [hN] at h2
    exact h2
  · have h2 := h.2.2.1
    rw [hN] at h2
    rw [show splitN splitterCfgEx 4 splitterStEx =
      splitN splitterCfgEx 4
        (build_move splitterCfgEx ⟨0, 0, 0, 0⟩ ⟨0, 10, 0, 0⟩ 1 10)
      from rfl, h2]
    norm_num [calc_z_offset, meshCalcZ, calc_z, get_linear_index,
      constrain, constrainI, lerp, splitterCfgEx]

/-- Witness for C10: on the example state the loop with fuel `loopFuel`
does not run out, and the traversal is complete after 4 calls. -/
theorem C10_split_terminates_witness :
    checkLoop splitterCfgEx (loopFuel splitterCfgEx splitterStEx)
      splitterStEx ≠ LoopResult.fuelOut splitterStEx ∧
    (splitN splitterCfgEx 4 splitterStEx).2.traverse_complete = true := by
  have h := C10_split_terminates splitterCfgEx ⟨0, 0, 0, 0⟩
    ⟨0, 10, 0, 0⟩ 1 10 (by norm_num [sumSq]) (by norm_num)
    (by norm_num [splitterCfgEx])
  have hN : (⌊(10 : ℚ) / splitterCfgEx.move_check_distance⌋).toNat + 1 =
      4 := by
    norm_num [splitterCfgEx]
    decide
  refine ⟨h.1 splitterStEx splitterStEx
    (by norm_num [splitterStEx, build_move]), ?_⟩
  have h2 := h.2
  rw [hN] at h2
  exact h2

end Klipper





